import Mathlib

/-!
Verification development for the Anicargo backend.

This file gives a shallow embedding, in Lean 4, of the parts of the
Anicargo source that the specification's claims are about:

* the durable job queue of `anicargo-library` (`enqueue_job`,
  `fetch_next_job`, `complete_job`, `fail_job`, `requeue_stuck_jobs`),
  modelled as pure transformers on an explicit queue state, with SQL
  timestamps as integers (epoch seconds) and the `u32 as i32` cast of
  `max_attempts` modelled by explicit wrap-around;
* the HLS path-containment check of `anicargo-api`
  (`ensure_within_root`, `serve_hls_file`), over a symlink-free file
  system modelled as the set of existing canonical paths;
* the title normalisation / bigram-similarity / episode-resolution
  functions of the matcher, with `f32`/`f64` arithmetic modelled by
  exact rationals and Unicode strings modelled as lists of code points
  (ASCII model of the case predicates);
* the `auto_match_all` orchestration over an explicit database state
  with the external catalog abstracted as a pure query interface;
* the `media_id_from_path` hash of `anicargo-media` (Rust
  `DefaultHasher` = SipHash-1-3 with the fixed keys (0, 0), followed by
  zero-padded 16-digit lower-case hex formatting);
* the worker dispatch for `"index"` jobs in `process_job`.

Sequential semantics: database operations are modelled as atomic steps
on the state, which matches the transactional / single-statement SQL of
the source; true interleaving (skip-locked races, semaphores) is out of
scope of the embedding.
-/

namespace Anicargo

/-! ## Job queue model (anicargo-library/src/lib.rs) -/

/-- The five values the `status` text column takes. -/
inductive JobStatus where
  | queued
  | running
  | retry
  | done
  | failed
deriving DecidableEq, Repr

/-- The predicate of the partial unique index `job_queue_dedup_active`:
`status IN ('queued', 'running', 'retry')`. -/
def JobStatus.isActive : JobStatus → Bool
  | .queued => true
  | .running => true
  | .retry => true
  | _ => false

/-- One row of the `job_queue` table.  JSONB columns (`payload`,
`result`) are carried as opaque strings; timestamps are epoch seconds. -/
structure JobRow where
  id : Int
  job_type : String
  payload : String
  status : JobStatus
  attempts : Int
  max_attempts : Int
  scheduled_at : Int
  locked_at : Option Int
  locked_by : Option String
  dedup_key : Option String
  result : Option String
  last_error : Option String
  created_at : Int
  updated_at : Int
deriving DecidableEq, Repr

/-- The queue table plus the BIGSERIAL `id` sequence. -/
structure QueueState where
  rows : List JobRow
  nextId : Int
deriving DecidableEq, Repr

def initState : QueueState := ⟨[], 1⟩

/-- Rust's `as i32` on a `u32`: two's-complement wrap-around. -/
def wrapI32 (n : Nat) : Int := ((n : Int) + 2 ^ 31) % 2 ^ 32 - 2 ^ 31

/-- A freshly inserted row: the schema defaults are
`status DEFAULT` (set to `'queued'` by the INSERT), `attempts DEFAULT 0`,
`scheduled_at/created_at/updated_at DEFAULT NOW()`. -/
def newJobRow (id : Int) (job_type payload : String) (max_attempts : Int)
    (dedup_key : Option String) (now : Int) : JobRow :=
  { id := id
    job_type := job_type
    payload := payload
    status := .queued
    attempts := 0
    max_attempts := max_attempts
    scheduled_at := now
    locked_at := none
    locked_by := none
    dedup_key := dedup_key
    result := none
    last_error := none
    created_at := now
    updated_at := now }

/-- The conflict condition of the deduplicating INSERT: an existing row
with the same `(job_type, dedup_key)` and an active status. -/
def activeDup (job_type key : String) (r : JobRow) : Bool :=
  r.job_type == job_type && r.dedup_key == some key && r.status.isActive

/-- Accumulator step realising `ORDER BY id DESC LIMIT 1`. -/
def maxIdStep (acc : Option JobRow) (r : JobRow) : Option JobRow :=
  match acc with
  | none => some r
  | some b => if b.id < r.id then some r else some b

/-- The secondary lookup of `enqueue_job`:
`SELECT id ... WHERE job_type = $1 AND dedup_key = $2 AND status IN
('queued','running','retry') ORDER BY id DESC LIMIT 1`. -/
def selectActiveDup (rows : List JobRow) (job_type key : String) : Option JobRow :=
  (rows.filter (activeDup job_type key)).foldl maxIdStep none

/-- `enqueue_job` (lib.rs:581).  With a dedup key: the INSERT with
`ON CONFLICT ... WHERE status IN ('queued','running','retry') DO NOTHING
RETURNING id` inserts exactly when no active duplicate exists; when it
returns no row, a secondary SELECT looks the active duplicate up; only
if that also finds nothing does control fall through to the final
INSERT, which carries no `dedup_key`.  Returns the id handed back to
the caller together with the new state. -/
def enqueue_job (s : QueueState) (job_type payload : String) (max_attempts : Nat)
    (dedup_key : Option String) (now : Int) : Int × QueueState :=
  let ma := wrapI32 max_attempts
  let fallback : Int × QueueState :=
    (s.nextId, ⟨s.rows ++ [newJobRow s.nextId job_type payload ma none now], s.nextId + 1⟩)
  match dedup_key with
  | some key =>
    if s.rows.any (activeDup job_type key) then
      match selectActiveDup s.rows job_type key with
      | some r => (r.id, s)
      | none => fallback
    else
      (s.nextId, ⟨s.rows ++ [newJobRow s.nextId job_type payload ma (some key) now], s.nextId + 1⟩)
  | none => fallback

/-- The returned `Job` value of `fetch_next_job`. -/
structure Job where
  id : Int
  job_type : String
  payload : String
  attempts : Int
  max_attempts : Int
deriving DecidableEq, Repr

/-- Row eligibility in `fetch_next_job`:
`status IN ('queued','retry') AND scheduled_at <= NOW() AND attempts <
max_attempts`. -/
def fetchEligible (now : Int) (r : JobRow) : Bool :=
  (r.status == .queued || r.status == .retry)
    && decide (r.scheduled_at ≤ now)
    && decide (r.attempts < r.max_attempts)

/-- Accumulator step realising `ORDER BY created_at ... LIMIT 1`
(ties resolved to the earlier row, as for a stable scan). -/
def minCreatedStep (acc : Option JobRow) (r : JobRow) : Option JobRow :=
  match acc with
  | none => some r
  | some b => if r.created_at < b.created_at then some r else some b

/-- The row selected by the leasing SELECT of `fetch_next_job`. -/
def pickNextJob (rows : List JobRow) (now : Int) : Option JobRow :=
  (rows.filter (fetchEligible now)).foldl minCreatedStep none

/-- `fetch_next_job` (lib.rs:638): lease the earliest eligible row,
increment `attempts`, mark it running and locked. -/
def fetch_next_job (s : QueueState) (worker_id : String) (now : Int) :
    Option Job × QueueState :=
  match pickNextJob s.rows now with
  | none => (none, s)
  | some row =>
    let attempts := row.attempts + 1
    let rows := s.rows.map fun r =>
      if r.id == row.id then
        { r with
            status := .running
            locked_at := some now
            locked_by := some worker_id
            attempts := attempts
            updated_at := now }
      else r
    (some ⟨row.id, row.job_type, row.payload, attempts, row.max_attempts⟩,
      ⟨rows, s.nextId⟩)

/-- `complete_job` (lib.rs:686). -/
def complete_job (s : QueueState) (job_id : Int) (result : Option String)
    (now : Int) : QueueState :=
  { s with
      rows := s.rows.map fun r =>
        if r.id == job_id then
          { r with
              status := .done
              result := result
              updated_at := now
              locked_at := none
              locked_by := none }
        else r }

/-- `fail_job` (lib.rs:704).  The branch is decided by the caller-passed
`attempts` / `max_attempts` values; the retry branch schedules the job
at `NOW() + make_interval(secs => 30 * attempts)`. -/
def fail_job (s : QueueState) (job_id : Int) (attempts max_attempts : Int)
    (error : String) (now : Int) : QueueState :=
  if max_attempts ≤ attempts then
    { s with
        rows := s.rows.map fun r =>
          if r.id == job_id then
            { r with
                status := .failed
                last_error := some error
                updated_at := now
                locked_at := none
                locked_by := none }
          else r }
  else
    { s with
        rows := s.rows.map fun r =>
          if r.id == job_id then
            { r with
                status := .retry
                last_error := some error
                scheduled_at := now + 30 * attempts
                updated_at := now
                locked_at := none
                locked_by := none }
          else r }

/-- The per-row effect of `requeue_stuck_jobs` (lib.rs:775): of the
rows in `status='running'` whose `locked_at` is older than the timeout,
those with `attempts >= max_attempts` are failed with
`last_error='timeout'`, the others are retried immediately.  The source
runs the failing UPDATE first and the retrying UPDATE second; a row hit
by the first is no longer `running` for the second, so the two scans
equal one scan with a nested branch. -/
def requeue_stuck_jobs (s : QueueState) (timeout_secs : Nat) (now : Int) :
    QueueState :=
  if timeout_secs = 0 then s
  else
    { s with
        rows := s.rows.map fun r =>
          if r.status == .running
              && (match r.locked_at with
                  | some t => decide (t < now - (timeout_secs : Int))
                  | none => false) then
            if r.max_attempts ≤ r.attempts then
              { r with
                  status := .failed
                  last_error := some "timeout"
                  updated_at := now
                  locked_at := none
                  locked_by := none }
            else
              { r with
                  status := .retry
                  last_error := some "timeout"
                  scheduled_at := now
                  updated_at := now
                  locked_at := none
                  locked_by := none }
          else r }

/-- One queue operation of a sequential execution.  `fail` carries only
the id and message: the worker loop (main.rs:1989) passes the
`attempts` / `max_attempts` values of the job it fetched, which in a
sequential execution are the row's current values. -/
inductive QueueOp where
  | enqueue (job_type payload : String) (max_attempts : Nat)
      (dedup_key : Option String) (now : Int)
  | fetch (worker_id : String) (now : Int)
  | complete (job_id : Int) (result : Option String) (now : Int)
  | fail (job_id : Int) (error : String) (now : Int)
  | requeue (timeout_secs : Nat) (now : Int)
deriving DecidableEq, Repr

def applyOp (s : QueueState) (op : QueueOp) : QueueState :=
  match op with
  | .enqueue t p m k now => (enqueue_job s t p m k now).2
  | .fetch w now => (fetch_next_job s w now).2
  | .complete id res now => complete_job s id res now
  | .fail id e now =>
    match s.rows.find? (fun r => r.id == id) with
    | some r => fail_job s id r.attempts r.max_attempts e now
    | none => s
  | .requeue t now => requeue_stuck_jobs s t now

def runOps (s : QueueState) (ops : List QueueOp) : QueueState :=
  ops.foldl applyOp s

/-- Enqueues whose `max_attempts` survives the `u32 as i32` cast. -/
def enqueueBounded : QueueOp → Bool
  | .enqueue _ _ m _ _ => decide (m < 2 ^ 31)
  | _ => true

/-- The state invariant: attempts within bounds, ids below the sequence
counter, and ids pairwise distinct (BIGSERIAL primary key). -/
def QueueInv (s : QueueState) : Prop :=
  (∀ r ∈ s.rows, 0 ≤ r.attempts ∧ r.attempts ≤ r.max_attempts ∧ r.id < s.nextId) ∧
  (s.rows.map JobRow.id).Nodup

/-! ## HLS path containment (anicargo-api/src/main.rs)

A path is a list of components.  The file system is modelled as the
list of existing paths, each already in canonical form (no `..`
components); symlinks are not modelled, so `fs::canonicalize`
becomes: resolve `.` and `..` lexically, then require the result to
exist. -/

/-- Lexical resolution of `.` and `..` (at the root, `..` stays at the
root, as on Linux). -/
def resolveDots (p : List String) : List String :=
  p.foldl
    (fun acc c =>
      if c = "." then acc
      else if c = ".." then acc.dropLast
      else acc ++ [c])
    []

/-- `std::fs::canonicalize` over the modelled file system: fails (with
`ENOENT`, surfaced as `Err`) whenever the path does not exist. -/
def canonicalize (fs : List (List String)) (p : List String) :
    Option (List String) :=
  let r := resolveDots p
  if r ∈ fs then some r else none

/-- `ensure_within_root` (main.rs:3675).  HTTP statuses are carried as
their numeric codes: 500 when the root cannot be canonicalized, 404
when the candidate cannot ("file not found"), 403 when the canonical
candidate does not start with the canonical root ("invalid path"). -/
def ensure_within_root (fs : List (List String)) (root path : List String) :
    Except Nat (List String) :=
  match canonicalize fs root with
  | none => .error 500
  | some rootCanon =>
    match canonicalize fs path with
    | none => .error 404
    | some candidate =>
      if rootCanon.isPrefixOf candidate then .ok candidate
      else .error 403

/-- `serve_hls_file` (main.rs:1806) up to the path decision: the path
served is `root/id/file` after the containment check (the subsequent
`File::open` cannot fail in the model, existence being part of
canonicalization). -/
def serve_hls_file (fs : List (List String)) (root : List String)
    (id file : List String) : Except Nat (List String) :=
  ensure_within_root fs root (root ++ id ++ file)

/-! ## Title normalisation, similarity, episode resolution
(anicargo-library/src/lib.rs)

Strings the algorithms inspect are lists of Unicode code points; the
ASCII fragments of `char::is_alphanumeric`, `char::to_lowercase`,
`char::is_ascii_digit` and `str::trim` model the Rust predicates.
`f32`/`f64` arithmetic is modelled by exact rationals. -/

/-- Model of `char::is_alphanumeric`, from the Unicode character data
Rust uses: exact on ASCII and on the non-ASCII code points this
development refers to — U+0130 (İ) and U+00DF (ß) are alphanumeric,
while U+0307 (the combining dot above, category Mn, produced by
lowercasing U+0130) is not. -/
def is_alphanumeric (c : Nat) : Bool :=
  (65 ≤ c && c ≤ 90) || (97 ≤ c && c ≤ 122) || (48 ≤ c && c ≤ 57)
    || c == 0x130 || c == 0xDF

/-- Model of `char::to_lowercase`, which yields a *sequence* of code
points (consumed through `flat_map` in `normalize_title`): exact on
ASCII and on the code points above — U+0130 lowercases to `i` followed
by U+0307, U+00DF to itself. -/
def to_lowercase (c : Nat) : List Nat :=
  if 65 ≤ c ∧ c ≤ 90 then [c + 32]
  else if c = 0x130 then [0x69, 0x307]
  else [c]

/-- Model of `char::to_uppercase` (used only to state case
invariance): exact on ASCII; U+00DF uppercases to `SS`. -/
def to_uppercase (c : Nat) : List Nat :=
  if 97 ≤ c ∧ c ≤ 122 then [c - 32]
  else if c = 0xDF then [0x53, 0x53]
  else [c]

/-- `normalize_title` (lib.rs:1397): keep alphanumeric characters,
then `flat_map` each through `char::to_lowercase`. -/
def normalize_title (value : List Nat) : List Nat :=
  (value.filter is_alphanumeric).flatMap to_lowercase

/-- `bigrams` (lib.rs:1435): the list of adjacent character pairs
(`windows(2)`, so fewer than two characters give the empty list, which
is what `zip` with the tail computes). -/
def bigrams (value : List Nat) : List (Nat × Nat) :=
  value.zip value.tail

/-- The greedy one-to-one bigram matching loop of `similarity`: each
left bigram consumes the first not-yet-used equal right bigram.
Marking the first unused equal element of the right list is the same as
erasing its first occurrence from the unused remainder, which is what
`List.erase` does. -/
def greedyMatches {α : Type} [DecidableEq α] (a b : List α) : Nat :=
  match a with
  | [] => 0
  | x :: xs => if x ∈ b then 1 + greedyMatches xs (b.erase x) else greedyMatches xs b

/-- `similarity` (lib.rs:1405): 0 on an empty side, 1 on equality, 0.85
when one string contains the other, else Dice on character bigrams. -/
def similarity (a b : List Nat) : ℚ :=
  if a = [] ∨ b = [] then 0
  else if a = b then 1
  else if b <:+: a ∨ a <:+: b then 85 / 100
  else if bigrams a = [] ∨ bigrams b = [] then 0
  else (2 * (greedyMatches (bigrams a) (bigrams b) : ℚ)) /
    (((bigrams a).length : ℚ) + ((bigrams b).length : ℚ))

/-- ASCII model of `str::trim().is_empty()`: every character is
whitespace. -/
def isBlank (l : List Nat) : Bool :=
  l.all fun c => c = 32 || c = 9 || c = 10 || c = 13

/-- A cached catalog episode (`Episode` of anicargo-bangumi plus the
`subject_id` column of `bangumi_episodes`); `sort`/`ep` are `f64`,
modelled as rationals. -/
structure Episode where
  id : Int
  subject_id : Int
  episode_type : Int
  name : List Nat
  name_cn : List Nat
  sort : ℚ
  ep : Option ℚ
  airdate : Option (List Nat)
deriving DecidableEq, Repr

/-- The character-collection loop of `parse_episode_number`: push ASCII
digits and dots; at the first other character, stop if something has
been collected, otherwise keep scanning. -/
def collectEpisodeChars (raw : List Nat) (buf : List Nat) : List Nat :=
  match raw with
  | [] => buf
  | c :: rest =>
    if (48 ≤ c && c ≤ 57) || c == 46 then collectEpisodeChars rest (buf ++ [c])
    else if buf.isEmpty then collectEpisodeChars rest buf
    else buf

/-- Decimal value of a list of ASCII digit code points. -/
def natOfDigits (l : List Nat) : Nat :=
  l.foldl (fun n c => 10 * n + (c - 48)) 0

/-- Rust `f64::from_str` on a string made of ASCII digits and dots (the
only strings `parse_episode_number` hands it): it parses exactly when
there is at most one dot and at least one digit; the value, exact in
the rational model. -/
def parseDecimal (buf : List Nat) : Option ℚ :=
  if buf = [] then none
  else
    let dots := buf.count 46
    if dots = 0 then some (natOfDigits buf : ℚ)
    else if dots = 1 then
      let ip := buf.takeWhile (fun c => c ≠ 46)
      let fp := (buf.dropWhile (fun c => c ≠ 46)).tail
      if ip = [] ∧ fp = [] then none
      else some ((natOfDigits ip : ℚ) + (natOfDigits fp : ℚ) / (10 : ℚ) ^ fp.length)
    else none

/-- `parse_episode_number` (lib.rs:1352). -/
def parse_episode_number (raw : List Nat) : Option ℚ :=
  let buf := collectEpisodeChars raw []
  if buf = [] then none else parseDecimal buf

/-- The value an episode is compared at: `episode.ep.unwrap_or(episode.sort)`. -/
def episodeValue (e : Episode) : ℚ :=
  e.ep.getD e.sort

/-- The scanning loop of `match_episode_id`: an episode within 0.01 of
the target returns immediately; otherwise the strictly closest episode
so far is tracked, and at the end the best is kept only within 1.0. -/
def matchEpisodeLoop (target : ℚ) (episodes : List Episode)
    (best : Option (Int × ℚ)) : Option Int :=
  match episodes with
  | [] =>
    match best with
    | none => none
    | some (bid, bdiff) => if bdiff ≤ 1 then some bid else none
  | e :: rest =>
    let diff := |episodeValue e - target|
    if diff ≤ 1 / 100 then some e.id
    else
      matchEpisodeLoop target rest
        (match best with
         | none => some (e.id, diff)
         | some (bid, bdiff) =>
           if diff < bdiff then some (e.id, diff) else some (bid, bdiff))

/-- `match_episode_id` (lib.rs:1331). -/
def match_episode_id (episode_str : List Nat) (episodes : List Episode) :
    Option Int :=
  match parse_episode_number episode_str with
  | none => none
  | some target => matchEpisodeLoop target episodes none

/-- Restatement of the claimed episode-resolution rule, in the spec's
words (for the refinement theorem, not taken from the source): the
first episode within 0.01 of the parsed value wins immediately;
otherwise the closest episode (first, on ties) is chosen when within
1.0; a string with no parsed number yields no episode. -/
def specEpisodePick (episode_str : List Nat) (episodes : List Episode) :
    Option Int :=
  match parse_episode_number episode_str with
  | none => none
  | some target =>
    match episodes.find? (fun e => decide (|episodeValue e - target| ≤ 1 / 100)) with
    | some e => some e.id
    | none =>
      let closest := episodes.foldl
        (fun acc e =>
          match acc with
          | none => some e
          | some b =>
            if |episodeValue e - target| < |episodeValue b - target| then some e
            else some b)
        none
      match closest with
      | none => none
      | some e => if |episodeValue e - target| ≤ 1 then some e.id else none

/-- `AutoMatchOptions` with its `Default`: `{8, 0.5, 0.9}`. -/
structure AutoMatchOptions where
  limit : Nat
  min_candidate_score : ℚ
  min_confidence : ℚ
deriving DecidableEq, Repr

def AutoMatchOptions.default : AutoMatchOptions :=
  ⟨8, 1 / 2, 9 / 10⟩

/-- `IndexSummary` (anicargo-library lib.rs:63). -/
structure IndexSummary where
  scanned : Nat
  upserted : Nat
  parsed : Nat
  skipped : Nat
  removed : Nat
deriving DecidableEq, Repr

/-- `AutoMatchSummary` (anicargo-library lib.rs:72). -/
structure AutoMatchSummary where
  scanned : Nat
  candidates : Nat
  matched : Nat
  skipped : Nat
deriving DecidableEq, Repr

/-! ## The matcher (`auto_match_all`, anicargo-library/src/lib.rs:373)

The tables the matcher touches are carried in an explicit database
state; the external catalog client is a pure query interface.  The
`reason` text column only ever holds either the formatted score
components of `score_subject` or the literal `manual override`, so it
is modelled by an inductive carrying exactly that information.
Timestamp bookkeeping columns (`created_at`, `updated_at`,
`synced_at`), which no claim mentions, are omitted from the rows. -/

/-- `Subject` (anicargo-bangumi lib.rs:173); `images` and the raw
payload are opaque. -/
structure Subject where
  id : Int
  subject_type : Int
  name : List Nat
  name_cn : List Nat
  summary : List Nat
  date : Option (List Nat)
  total_episodes : Option Int
  images : Option String
deriving DecidableEq, Repr

/-- The two values of the `method` column. -/
inductive MatchMethod where
  | auto
  | manual
deriving DecidableEq, Repr

/-- The information content of the `reason` column: either the
`"title={:.2}"` / `";year=+0.05"` components written by
`score_subject`, or the literal `manual override`. -/
inductive MatchReason where
  | scored (title_component : ℚ) (year_boost : Bool)
  | manualOverride
deriving DecidableEq, Repr

/-- A `media_parses` row as read by `auto_match_all`
(`SELECT media_id, title, episode, year, parse_ok`). -/
structure MediaParseRow where
  media_id : String
  title : Option (List Nat)
  episode : Option (List Nat)
  year : Option (List Nat)
  parse_ok : Bool
deriving DecidableEq, Repr

/-- A `media_matches` row. -/
structure MediaMatchRow where
  media_id : String
  subject_id : Int
  episode_id : Option Int
  method : MatchMethod
  confidence : Option ℚ
  reason : Option MatchReason
deriving DecidableEq, Repr

/-- A `match_candidates` row. -/
structure CandidateRow where
  media_id : String
  subject_id : Int
  confidence : ℚ
  reason : MatchReason
deriving DecidableEq, Repr

/-- The database tables the matcher reads and writes. -/
structure MatchDb where
  media_parses : List MediaParseRow
  media_matches : List MediaMatchRow
  match_candidates : List CandidateRow
  bangumi_subjects : List Subject
  bangumi_episodes : List Episode
deriving Repr

/-- The catalog client (`BangumiClient`), as the pure interface the
matcher consumes: `search_anime(keyword, limit).data`,
`get_subject(id)`, `get_all_episodes(subject_id)`. -/
structure CatalogClient where
  search : List Nat → Nat → List Subject
  get_subject : Int → Subject
  get_all_episodes : Int → List Episode

/-- `title_similarity` (lib.rs:1383): best of the normalised
similarity against `name` and (when non-blank) `name_cn`. -/
def title_similarity (title name name_cn : List Nat) : ℚ :=
  let score_name := similarity (normalize_title title) (normalize_title name)
  let score_cn :=
    if isBlank name_cn then 0
    else similarity (normalize_title title) (normalize_title name_cn)
  max score_name score_cn

/-- `score_subject` (lib.rs:1369): the title similarity, plus 0.05
(capped at 1) when the parse's year prefixes the subject's date. -/
def score_subject (title : List Nat) (year : Option (List Nat)) (subject : Subject) :
    ℚ × MatchReason :=
  let base := title_similarity title subject.name subject.name_cn
  let boost :=
    match year, subject.date with
    | some y, some d => y.isPrefixOf d
    | _, _ => false
  if boost then (min (base + 5 / 100) 1, .scored base true)
  else (base, .scored base false)

/-- `has_manual_match` (lib.rs:1188). -/
def has_manual_match (db : MatchDb) (media_id : String) : Bool :=
  db.media_matches.any fun r => r.media_id == media_id && r.method == .manual

/-- `clear_candidates` (lib.rs:1173): `DELETE FROM match_candidates
WHERE media_id = $1`. -/
def clear_candidates (db : MatchDb) (media_id : String) : MatchDb :=
  { db with match_candidates := db.match_candidates.filter fun c => !(c.media_id == media_id) }

/-- `clear_auto_match` (lib.rs:1181): `DELETE FROM media_matches WHERE
media_id = $1 AND method = 'auto'`. -/
def clear_auto_match (db : MatchDb) (media_id : String) : MatchDb :=
  { db with
      media_matches := db.media_matches.filter fun r =>
        !(r.media_id == media_id && r.method == .auto) }

/-- `upsert_subject_cached` / `upsert_subject`: INSERT with
`ON CONFLICT (id) DO UPDATE` of every content column. -/
def upsert_subject_cached (db : MatchDb) (s : Subject) : MatchDb :=
  if db.bangumi_subjects.any fun x => x.id == s.id then
    { db with bangumi_subjects := db.bangumi_subjects.map fun x => if x.id == s.id then s else x }
  else
    { db with bangumi_subjects := db.bangumi_subjects ++ [s] }

/-- `upsert_candidate` (lib.rs:1148): keyed on `(media_id, subject_id)`. -/
def upsert_candidate (db : MatchDb) (media_id : String) (subject_id : Int)
    (confidence : ℚ) (reason : MatchReason) : MatchDb :=
  if db.match_candidates.any fun c => c.media_id == media_id && c.subject_id == subject_id then
    { db with
        match_candidates := db.match_candidates.map fun c =>
          if c.media_id == media_id && c.subject_id == subject_id then
            { c with confidence := confidence, reason := reason }
          else c }
  else
    { db with match_candidates := db.match_candidates ++ [⟨media_id, subject_id, confidence, reason⟩] }

/-- `upsert_media_match` (lib.rs:1200): keyed on `media_id`
(`ON CONFLICT (media_id) DO UPDATE` of every other column). -/
def upsert_media_match (db : MatchDb) (media_id : String) (subject_id : Int)
    (episode_id : Option Int) (method : MatchMethod) (confidence : Option ℚ)
    (reason : Option MatchReason) : MatchDb :=
  if db.media_matches.any fun r => r.media_id == media_id then
    { db with
        media_matches := db.media_matches.map fun r =>
          if r.media_id == media_id then
            { r with
                subject_id := subject_id
                episode_id := episode_id
                method := method
                confidence := confidence
                reason := reason }
          else r }
  else
    { db with
        media_matches := db.media_matches ++
          [⟨media_id, subject_id, episode_id, method, confidence, reason⟩] }

/-- `upsert_episode`: keyed on the episode id; the stored `subject_id`
column is bound from the subject being synced. -/
def upsert_episode (db : MatchDb) (subject : Subject) (e : Episode) : MatchDb :=
  let row := { e with subject_id := subject.id }
  if db.bangumi_episodes.any fun x => x.id == e.id then
    { db with bangumi_episodes := db.bangumi_episodes.map fun x => if x.id == e.id then row else x }
  else
    { db with bangumi_episodes := db.bangumi_episodes ++ [row] }

/-- `sync_bangumi_subject` (lib.rs:343): fetch the subject and all of
its episodes from the catalog and upsert them. -/
def sync_bangumi_subject (db : MatchDb) (client : CatalogClient) (subject_id : Int) :
    MatchDb :=
  let subject := client.get_subject subject_id
  let db := upsert_subject_cached db subject
  (client.get_all_episodes subject_id).foldl
    (fun db e => upsert_episode db subject e) db

/-- `load_cached_episodes` (lib.rs:1294). -/
def load_cached_episodes (db : MatchDb) (subject_id : Int) : List Episode :=
  db.bangumi_episodes.filter fun e => e.subject_id == subject_id

/-- `ensure_episode_cache` (lib.rs:1276): sync exactly when the cached
episode count for the subject is zero. -/
def ensure_episode_cache (db : MatchDb) (client : CatalogClient) (subject_id : Int) :
    MatchDb :=
  if (load_cached_episodes db subject_id).length = 0 then
    sync_bangumi_subject db client subject_id
  else db

/-- The `for subject in search.data` loop of `auto_match_all`: upsert
the subject, score it, skip it below `min_candidate_score`, otherwise
persist a candidate, count it, and track the strictly best score
(first wins ties). -/
def candidateLoop (db : MatchDb) (media_id : String) (title : List Nat)
    (year : Option (List Nat)) (opts : AutoMatchOptions) (subjects : List Subject)
    (cand : Nat) (best : Option (Subject × ℚ × MatchReason)) :
    MatchDb × Nat × Option (Subject × ℚ × MatchReason) :=
  match subjects with
  | [] => (db, cand, best)
  | subject :: rest =>
    let db := upsert_subject_cached db subject
    let sr := score_subject title year subject
    if sr.1 < opts.min_candidate_score then
      candidateLoop db media_id title year opts rest cand best
    else
      let db := upsert_candidate db media_id subject.id sr.1 sr.2
      let best :=
        if (match best with
            | none => true
            | some b => decide (b.2.1 < sr.1)) then
          some (subject, sr.1, sr.2)
        else best
      candidateLoop db media_id title year opts rest (cand + 1) best

/-- The body of `auto_match_all`'s `for row in rows` loop for one
`media_parses` row. -/
def autoMatchRow (client : CatalogClient) (opts : AutoMatchOptions)
    (db : MatchDb) (summary : AutoMatchSummary) (row : MediaParseRow) :
    MatchDb × AutoMatchSummary :=
  let summary := { summary with scanned := summary.scanned + 1 }
  if !row.parse_ok then
    (db, { summary with skipped := summary.skipped + 1 })
  else if has_manual_match db row.media_id then
    (db, { summary with skipped := summary.skipped + 1 })
  else
    match row.title with
    | none => (db, { summary with skipped := summary.skipped + 1 })
    | some title =>
      if isBlank title then
        (db, { summary with skipped := summary.skipped + 1 })
      else
        let search := client.search title opts.limit
        let db := clear_candidates db row.media_id
        let db := clear_auto_match db row.media_id
        if search.isEmpty then
          (db, { summary with skipped := summary.skipped + 1 })
        else
          let step := candidateLoop db row.media_id title row.year opts search 0 none
          let db := step.1
          let summary := { summary with candidates := summary.candidates + step.2.1 }
          match step.2.2 with
          | none => (db, { summary with skipped := summary.skipped + 1 })
          | some best =>
            if best.2.1 < opts.min_confidence then (db, summary)
            else
              let epStep : MatchDb × Option Int :=
                match row.episode with
                | some epStr =>
                  let db := ensure_episode_cache db client best.1.id
                  (db, match_episode_id epStr (load_cached_episodes db best.1.id))
                | none => (db, none)
              let db := upsert_media_match epStep.1 row.media_id best.1.id epStep.2
                .auto (some best.2.1) (some best.2.2)
              (db, { summary with matched := summary.matched + 1 })

/-- `auto_match_all` (lib.rs:373): the rows of `media_parses` are read
once up front, then processed in order against the evolving database. -/
def auto_match_all (db : MatchDb) (client : CatalogClient) (opts : AutoMatchOptions) :
    MatchDb × AutoMatchSummary :=
  db.media_parses.foldl
    (fun acc row => autoMatchRow client opts acc.1 acc.2 row)
    (db, ⟨0, 0, 0, 0⟩)

/-! ## The media id hash (anicargo-media/src/lib.rs)

`media_id_from_path` feeds the lossy string of the path into
`std::collections::hash_map::DefaultHasher` — SipHash-1-3 with the
fixed keys (0, 0) — and formats the 64-bit result with `{:016x}`.
`Hash for str` writes the UTF-8 bytes followed by a 0xff byte.  64-bit
arithmetic is modelled on `Nat` with explicit reduction mod 2^64. -/

def mask64 (n : Nat) : Nat := n % 2 ^ 64

def add64 (a b : Nat) : Nat := mask64 (a + b)

def rotl64 (a : Nat) (r : Nat) : Nat :=
  mask64 ((a <<< r) ||| (mask64 a >>> (64 - r)))

/-- The SipHash state. -/
structure SipState where
  v0 : Nat
  v1 : Nat
  v2 : Nat
  v3 : Nat
deriving Repr

/-- One SIPROUND. -/
def sipRound (s : SipState) : SipState :=
  let v0 := add64 s.v0 s.v1
  let v1 := rotl64 s.v1 13
  let v1 := v1 ^^^ v0
  let v0 := rotl64 v0 32
  let v2 := add64 s.v2 s.v3
  let v3 := rotl64 s.v3 16
  let v3 := v3 ^^^ v2
  let v0 := add64 v0 v3
  let v3 := rotl64 v3 21
  let v3 := v3 ^^^ v0
  let v2 := add64 v2 v1
  let v1 := rotl64 v1 17
  let v1 := v1 ^^^ v2
  let v2 := rotl64 v2 32
  ⟨v0, v1, v2, v3⟩

/-- Little-endian 64-bit word from up to eight bytes. -/
def le64 (bytes : List Nat) : Nat :=
  mask64 (bytes.foldr (fun b acc => acc * 256 + b % 256) 0)

/-- Absorb one 8-byte message word (`c` compression rounds; 1 for
SipHash-1-3). -/
def sipAbsorb (s : SipState) (m : Nat) : SipState :=
  let s := { s with v3 := s.v3 ^^^ m }
  let s := sipRound s
  { s with v0 := s.v0 ^^^ m }

/-- Absorb all full 8-byte blocks, returning the remaining tail. -/
def sipBlocks (s : SipState) (data : List Nat) : SipState × List Nat :=
  if h : data.length < 8 then (s, data)
  else
    have : data.length - 8 < data.length := by omega
    let m := le64 (data.take 8)
    sipBlocks (sipAbsorb s m) (data.drop 8)
termination_by data.length
decreasing_by simpa [List.length_drop] using this

/-- SipHash-1-3 of a byte list under keys `k0`, `k1`. -/
def sipHash13 (k0 k1 : Nat) (data : List Nat) : Nat :=
  let s : SipState :=
    ⟨mask64 (k0 ^^^ 0x736f6d6570736575),
     mask64 (k1 ^^^ 0x646f72616e646f6d),
     mask64 (k0 ^^^ 0x6c7967656e657261),
     mask64 (k1 ^^^ 0x7465646279746573)⟩
  let (s, tail) := sipBlocks s data
  let b := mask64 ((data.length % 256) <<< 56 ||| le64 tail)
  let s := sipAbsorb s b
  let s := { s with v2 := s.v2 ^^^ 0xff }
  let s := sipRound (sipRound (sipRound s))
  mask64 (s.v0 ^^^ s.v1 ^^^ s.v2 ^^^ s.v3)

/-- A lower-case hex digit as a code point. -/
def hexDigit (k : Nat) : Nat :=
  if k < 10 then 48 + k else 87 + k

/-- `{:016x}` of a `u64`: exactly sixteen lower-case hex digits,
zero-padded, most significant first. -/
def toHex16 (n : Nat) : List Nat :=
  (List.range 16).map fun i => hexDigit (n >>> (4 * (15 - i)) % 16)

/-- `media_id_from_path` (anicargo-media lib.rs:345) on the UTF-8 bytes
of the canonical path string: `DefaultHasher::new()` is SipHash-1-3
keyed (0, 0), `Hash for str` appends the 0xff separator byte, `finish`
is formatted `{:016x}`. -/
def media_id_from_path (pathBytes : List Nat) : List Nat :=
  toHex16 (sipHash13 0 0 (pathBytes ++ [0xff]))

/-- Membership in the lower-case hex alphabet. -/
def isHexChar (c : Nat) : Bool :=
  (48 ≤ c && c ≤ 57) || (97 ≤ c && c ≤ 102)

/-! ## The "index" worker handler (anicargo-api/src/main.rs:2020) -/

/-- The `"index"` arm of `process_job` (main.rs:2022), with the two
database-touching steps abstracted by their outcomes: `scan` is the
result of `scan_and_index`; `autoMatch` is the follow-on matching step,
invoked at `AutoMatchOptions::default()`, whose failure is only logged.
(The scan-semaphore permit held around the body and the function
actually called for the follow-on step — `auto_match_unmatched`, which
is declared by the imports but whose body is not part of the library
source — are modelled from the spec: acquiring the permit is a no-op in
the sequential model, and the follow-on step is an auto-match run with
default options.) -/
def process_index_job (scan : Except String IndexSummary)
    (autoMatch : AutoMatchOptions → Except String AutoMatchSummary) :
    Except String (Option IndexSummary) :=
  match scan with
  | .error e => .error ("index failed: " ++ e)
  | .ok summary =>
    let _ := autoMatch AutoMatchOptions.default
    .ok (some summary)

/-! ## Helper lemmas -/

theorem foldl_maxIdStep_spec (l : List JobRow) (b : JobRow) :
    ∃ r, l.foldl maxIdStep (some b) = some r ∧ (r = b ∨ r ∈ l) ∧
      b.id ≤ r.id ∧ ∀ x ∈ l, x.id ≤ r.id := by
  induction l generalizing b with
  | nil => exact ⟨b, rfl, Or.inl rfl, le_refl _, by simp⟩
  | cons a tl ih =>
    have hstep : (a :: tl).foldl maxIdStep (some b) =
        tl.foldl maxIdStep (maxIdStep (some b) a) := rfl
    by_cases h : b.id < a.id
    · obtain ⟨r, hfold, hmem, hle, hall⟩ := ih a
      refine ⟨r, ?_, ?_, ?_, ?_⟩
      · rw [hstep]; simpa [maxIdStep, h] using hfold
      · rcases hmem with h1 | h1
        · exact Or.inr (h1 ▸ List.mem_cons_self a tl)
        · exact Or.inr (List.mem_cons_of_mem a h1)
      · exact le_of_lt (lt_of_lt_of_le h hle)
      · intro x hx
        rcases List.mem_cons.mp hx with h1 | h1
        · exact h1 ▸ hle
        · exact hall x h1
    · obtain ⟨r, hfold, hmem, hle, hall⟩ := ih b
      refine ⟨r, ?_, ?_, hle, ?_⟩
      · rw [hstep]; simpa [maxIdStep, h] using hfold
      · rcases hmem with h1 | h1
        · exact Or.inl h1
        · exact Or.inr (List.mem_cons_of_mem a h1)
      · intro x hx
        rcases List.mem_cons.mp hx with h1 | h1
        · exact h1 ▸ le_trans (le_of_not_lt h) hle
        · exact hall x h1

theorem selectActiveDup_spec (rows : List JobRow) (t k : String)
    (h : rows.any (activeDup t k) = true) :
    ∃ r, selectActiveDup rows t k = some r ∧ r ∈ rows ∧
      activeDup t k r = true ∧
      ∀ x ∈ rows, activeDup t k x = true → x.id ≤ r.id := by
  obtain ⟨w, hw, hwp⟩ := List.any_eq_true.mp h
  have hne : rows.filter (activeDup t k) ≠ [] := by
    intro hempty
    have : w ∈ rows.filter (activeDup t k) := List.mem_filter.mpr ⟨hw, hwp⟩
    rw [hempty] at this
    exact absurd this (List.not_mem_nil w)
  rcases hfl : rows.filter (activeDup t k) with _ | ⟨a, tl⟩
  · exact absurd hfl hne
  · obtain ⟨r, hfold, hmem, hle, hall⟩ := foldl_maxIdStep_spec tl a
    have hrf : r ∈ rows.filter (activeDup t k) := by
      rw [hfl]
      rcases hmem with h1 | h1
      · exact h1 ▸ List.mem_cons_self a tl
      · exact List.mem_cons_of_mem a h1
    have hr := List.mem_filter.mp hrf
    refine ⟨r, ?_, hr.1, hr.2, ?_⟩
    · show (rows.filter (activeDup t k)).foldl maxIdStep none = some r
      rw [hfl]
      exact hfold
    · intro x hx hxp
      have hxf : x ∈ rows.filter (activeDup t k) := List.mem_filter.mpr ⟨hx, hxp⟩
      rw [hfl] at hxf
      rcases List.mem_cons.mp hxf with h1 | h1
      · exact h1 ▸ hle
      · exact hall x h1

/-! ## Claim C3 -/

/-- Claim C3: for every call `fail_job(job_id, attempts, max_attempts,
error)`, the job row acquires `last_error = error` and cleared lock
fields; when `attempts ≥ max_attempts` its status becomes `failed`,
otherwise its status becomes `retry` and `scheduled_at` becomes
`now + 30·attempts` seconds (linear backoff). -/
theorem fail_job_spec (s : QueueState) (job_id attempts max_attempts : Int)
    (error : String) (now : Int) (r : JobRow) (hr : r ∈ s.rows)
    (hid : r.id = job_id) :
    ∃ r2 ∈ (fail_job s job_id attempts max_attempts error now).rows,
      r2.id = job_id ∧ r2.last_error = some error ∧ r2.locked_at = none ∧
      r2.locked_by = none ∧ r2.attempts = r.attempts ∧
      r2.max_attempts = r.max_attempts ∧
      (if max_attempts ≤ attempts then r2.status = .failed
       else r2.status = .retry ∧ r2.scheduled_at = now + 30 * attempts) := by
  by_cases h : max_attempts ≤ attempts
  · refine ⟨{ r with
        status := .failed
        last_error := some error
        updated_at := now
        locked_at := none
        locked_by := none }, ?_, ?_⟩
    · unfold fail_job
      rw [if_pos h]
      have hmem := List.mem_map_of_mem
        (fun r0 => if r0.id == job_id then
          { r0 with
            status := JobStatus.failed
            last_error := some error
            updated_at := now
            locked_at := none
            locked_by := none }
         else r0) hr
      simpa [hid] using hmem
    · simp [hid, h]
  · refine ⟨{ r with
        status := .retry
        last_error := some error
        scheduled_at := now + 30 * attempts
        updated_at := now
        locked_at := none
        locked_by := none }, ?_, ?_⟩
    · unfold fail_job
      rw [if_neg h]
      have hmem := List.mem_map_of_mem
        (fun r0 => if r0.id == job_id then
          { r0 with
            status := JobStatus.retry
            last_error := some error
            scheduled_at := now + 30 * attempts
            updated_at := now
            locked_at := none
            locked_by := none }
         else r0) hr
      simpa [hid] using hmem
    · simp [hid, h]

/-- Witness for C3 at a concrete state: a one-row queue failed at its
attempt limit. -/
theorem fail_job_spec_witness :
    ∃ r2 ∈ (fail_job ⟨[newJobRow 1 "index" "p" 3 none 0], 2⟩
        1 3 3 "boom" 100).rows,
      r2.id = 1 ∧ r2.last_error = some "boom" ∧ r2.locked_at = none ∧
      r2.locked_by = none ∧ r2.attempts = (newJobRow 1 "index" "p" 3 none 0).attempts ∧
      r2.max_attempts = (newJobRow 1 "index" "p" 3 none 0).max_attempts ∧
      (if (3 : Int) ≤ 3 then r2.status = .failed
       else r2.status = .retry ∧ r2.scheduled_at = 100 + 30 * 3) :=
  fail_job_spec ⟨[newJobRow 1 "index" "p" 3 none 0], 2⟩ 1 3 3 "boom" 100
    (newJobRow 1 "index" "p" 3 none 0) (List.mem_singleton.mpr rfl) rfl

/-! ## Claim C10 -/

/-- Claim C10: in a sequential execution, a call to `enqueue_job` with
a dedup key never reaches the final fallback INSERT: the state is
either unchanged (an active duplicate existed and the secondary lookup
found it) or extended by exactly one row carrying that dedup key, so a
dedup-keyed call never creates a row whose `dedup_key` is NULL. -/
theorem enqueue_dedup_no_null_fallback (s : QueueState) (t p : String)
    (m : Nat) (k : String) (now : Int) :
    ((enqueue_job s t p m (some k) now).2.rows = s.rows ∨
      (enqueue_job s t p m (some k) now).2.rows =
        s.rows ++ [newJobRow s.nextId t p (wrapI32 m) (some k) now]) ∧
    ∀ r ∈ (enqueue_job s t p m (some k) now).2.rows,
      r ∉ s.rows → r.dedup_key = some k := by
  by_cases h : s.rows.any (activeDup t k) = true
  · obtain ⟨r, hsel, _, _, _⟩ := selectActiveDup_spec s.rows t k h
    have hres : (enqueue_job s t p m (some k) now).2 = s := by
      simp [enqueue_job, h, hsel]
    rw [hres]
    exact ⟨Or.inl rfl, fun r hr hnr => absurd hr hnr⟩
  · rw [Bool.not_eq_true] at h
    have hres : (enqueue_job s t p m (some k) now).2 =
        ⟨s.rows ++ [newJobRow s.nextId t p (wrapI32 m) (some k) now],
          s.nextId + 1⟩ := by
      simp [enqueue_job, h]
    rw [hres]
    refine ⟨Or.inr rfl, fun r hr hnr => ?_⟩
    rcases List.mem_append.mp hr with h1 | h1
    · exact absurd h1 hnr
    · rw [List.mem_singleton.mp h1]
      rfl

/-! ## Claim C1 -/

/-- Claim C1: with a non-null dedup key, if an active job (status in
queued/running/retry) with the same `(job_type, dedup_key)` exists,
`enqueue_job` returns an existing active job's id (the largest, hence
under the uniqueness index the unique one) and creates no new row;
without a dedup key a new row is always created. -/
theorem enqueue_job_dedup (s : QueueState) (t p : String) (m : Nat)
    (k : String) (now : Int) :
    (∀ r0 ∈ s.rows, activeDup t k r0 = true →
       (enqueue_job s t p m (some k) now).2 = s ∧
       ∃ r ∈ s.rows, activeDup t k r = true ∧
         (enqueue_job s t p m (some k) now).1 = r.id) ∧
    ((enqueue_job s t p m none now).1 = s.nextId ∧
     (enqueue_job s t p m none now).2.rows =
       s.rows ++ [newJobRow s.nextId t p (wrapI32 m) none now]) := by
  constructor
  · intro r0 hr0 hr0p
    have h : s.rows.any (activeDup t k) = true :=
      List.any_eq_true.mpr ⟨r0, hr0, hr0p⟩
    obtain ⟨r, hsel, hrmem, hrp, _⟩ := selectActiveDup_spec s.rows t k h
    constructor
    · simp [enqueue_job, h, hsel]
    · refine ⟨r, hrmem, hrp, ?_⟩
      simp [enqueue_job, h, hsel]
  · exact ⟨rfl, rfl⟩

/-- Witness for C1: enqueueing `("index", key "k")` onto a queue that
already holds an active (queued) job of that type and key returns that
job's id and leaves the queue unchanged. -/
theorem enqueue_job_dedup_witness :
    (enqueue_job ⟨[newJobRow 1 "index" "p" 3 (some "k") 0], 2⟩
        "index" "q" 3 (some "k") 5).2 =
      ⟨[newJobRow 1 "index" "p" 3 (some "k") 0], 2⟩ ∧
    ∃ r ∈ (⟨[newJobRow 1 "index" "p" 3 (some "k") 0], 2⟩ : QueueState).rows,
      activeDup "index" "k" r = true ∧
      (enqueue_job ⟨[newJobRow 1 "index" "p" 3 (some "k") 0], 2⟩
          "index" "q" 3 (some "k") 5).1 = r.id :=
  (enqueue_job_dedup ⟨[newJobRow 1 "index" "p" 3 (some "k") 0], 2⟩
      "index" "q" 3 "k" 5).1
    (newJobRow 1 "index" "p" 3 (some "k") 0)
    (List.mem_singleton.mpr rfl) (by decide)

/-! ## Claim C9 -/

/-- Claim C9: a successfully scanned `"index"` job returns the index
summary as the job result; the follow-on auto-match step is invoked at
the default options and its outcome — in particular any failure — is
never propagated; only a failure of the scan itself fails the job. -/
theorem process_index_job_spec (scan : Except String IndexSummary)
    (am am2 : AutoMatchOptions → Except String AutoMatchSummary) :
    (∀ s, scan = .ok s → process_index_job scan am = .ok (some s)) ∧
    process_index_job scan am = process_index_job scan am2 ∧
    (∀ e, scan = .error e →
      process_index_job scan am = .error ("index failed: " ++ e)) := by
  refine ⟨?_, ?_, ?_⟩
  · intro s hs; rw [hs]; rfl
  · cases scan <;> rfl
  · intro e he; rw [he]; rfl

/-- Witness for C9: an `"index"` job whose scan succeeded returns the
summary even though the follow-on matching step failed. -/
theorem process_index_job_spec_witness :
    process_index_job (.ok ⟨1, 2, 3, 4, 5⟩)
        (fun _ => .error "match boom") = .ok (some ⟨1, 2, 3, 4, 5⟩) :=
  (process_index_job_spec (.ok ⟨1, 2, 3, 4, 5⟩)
      (fun _ => .error "match boom") (fun _ => .error "match boom")).1
    ⟨1, 2, 3, 4, 5⟩ rfl

/-! ## Claim C8 -/

/-- Claim C8: the media id is the 16-hex-character (lower-case,
zero-padded) rendering of a hash of the canonical path string; the hash
is SipHash-1-3 under the fixed keys (0, 0), a pure function of the path
bytes, hence deterministic across runs. -/
theorem media_id_hex16 (pathBytes : List Nat) :
    (media_id_from_path pathBytes).length = 16 ∧
    (∀ c ∈ media_id_from_path pathBytes, isHexChar c = true) ∧
    media_id_from_path pathBytes = toHex16 (sipHash13 0 0 (pathBytes ++ [255])) := by
  refine ⟨?_, ?_, rfl⟩
  · unfold media_id_from_path toHex16
    simp
  · intro c hc
    unfold media_id_from_path toHex16 at hc
    simp only [List.mem_map, List.mem_range] at hc
    obtain ⟨i, _, rfl⟩ := hc
    have hlt : sipHash13 0 0 (pathBytes ++ [255]) >>> (4 * (15 - i)) % 16 < 16 :=
      Nat.mod_lt _ (by norm_num)
    unfold hexDigit isHexChar
    split
    · simp only [Bool.or_eq_true, Bool.and_eq_true, decide_eq_true_eq]
      omega
    · simp only [Bool.or_eq_true, Bool.and_eq_true, decide_eq_true_eq]
      omega

/-! ## Claim C4 -/

theorem canonicalize_mem {fs : List (List String)} {p c : List String}
    (h : canonicalize fs p = some c) : c ∈ fs ∧ c = resolveDots p := by
  simp only [canonicalize] at h
  by_cases hmem : resolveDots p ∈ fs
  · rw [if_pos hmem] at h
    injection h with h
    exact ⟨h ▸ hmem, h.symm⟩
  · rw [if_neg hmem] at h
    exact absurd h (by simp)

/-- Claim C4 (amended): HLS file serving rejects with 403 Forbidden any
request whose resolved path exists but is not canonically contained in
the HLS root; a request whose target path cannot be canonicalized
(because it does not exist) is rejected with 404 instead of 403; and in
no case is a path outside the canonical root ever served. -/
theorem hls_path_containment (fs : List (List String))
    (root id file : List String) :
    (∀ rc c, canonicalize fs root = some rc →
       canonicalize fs (root ++ id ++ file) = some c →
       rc.isPrefixOf c = false →
       serve_hls_file fs root id file = .error 403) ∧
    (∀ rc, canonicalize fs root = some rc →
       canonicalize fs (root ++ id ++ file) = none →
       serve_hls_file fs root id file = .error 404) ∧
    (∀ p, serve_hls_file fs root id file = .ok p →
       ∃ rc, canonicalize fs root = some rc ∧ rc.isPrefixOf p = true ∧
         p ∈ fs) := by
  refine ⟨?_, ?_, ?_⟩
  · intro rc c hroot hcand hpre
    unfold serve_hls_file ensure_within_root
    rw [hroot, hcand]
    simp [hpre]
  · intro rc hroot hcand
    unfold serve_hls_file ensure_within_root
    rw [hroot, hcand]
  · intro p hp
    unfold serve_hls_file ensure_within_root at hp
    rcases hroot : canonicalize fs root with _ | rc <;> rw [hroot] at hp
    · exact absurd hp (by simp)
    · rcases hcand : canonicalize fs (root ++ id ++ file) with _ | c <;>
        rw [hcand] at hp
      · exact absurd hp (by simp)
      · by_cases hpre : rc.isPrefixOf c = true
        · have hcp : c = p := by
            simp only [hpre, if_true] at hp
            injection hp
          exact ⟨rc, rfl, hcp ▸ hpre, hcp ▸ (canonicalize_mem hcand).1⟩
        · exfalso
          rw [Bool.not_eq_true] at hpre
          simp [hpre] at hp

/-- Witness for C4 (amended): a traversal whose resolved target exists
(`srv/etc/passwd` is on the modelled file system) is answered 403. -/
theorem hls_path_containment_witness :
    serve_hls_file [["srv", "hls"], ["srv", "etc", "passwd"]] ["srv", "hls"]
      ["abc"] ["..", "..", "etc", "passwd"] = .error 403 :=
  (hls_path_containment [["srv", "hls"], ["srv", "etc", "passwd"]]
      ["srv", "hls"] ["abc"] ["..", "..", "etc", "passwd"]).1
    ["srv", "hls"] ["srv", "etc", "passwd"] (by decide) (by decide) (by decide)

/-- Claim C4 counterexample: the traversal `abc/../../etc/passwd` below
an existing HLS root resolves outside the root, yet when the resolved
target does not exist the response is 404 ("file not found" from the
failed canonicalization), not the claimed 403. -/
theorem hls_traversal_nonexistent_404 :
    List.isPrefixOf ["srv", "hls"]
      (resolveDots (["srv", "hls"] ++ ["abc"] ++ ["..", "..", "etc", "passwd"]))
      = false ∧
    serve_hls_file [["srv", "hls"]] ["srv", "hls"] ["abc"]
      ["..", "..", "etc", "passwd"] = .error 404 ∧
    ¬ serve_hls_file [["srv", "hls"]] ["srv", "hls"] ["abc"]
      ["..", "..", "etc", "passwd"] = .error 403 := by
  refine ⟨by decide, rfl, ?_⟩
  intro h
  rw [show serve_hls_file [["srv", "hls"]] ["srv", "hls"] ["abc"]
      ["..", "..", "etc", "passwd"] = .error 404 from rfl] at h
  injection h with h2
  exact absurd h2 (by decide)

/-! ## Claim C7 -/

theorem normalize_title_append (l1 l2 : List Nat) :
    normalize_title (l1 ++ l2) = normalize_title l1 ++ normalize_title l2 := by
  unfold normalize_title
  rw [List.filter_append, List.flatMap_append]

theorem normalize_title_idem_char :
    ∀ c < 128, normalize_title (normalize_title [c]) = normalize_title [c] := by
  decide

theorem normalize_title_lower_char :
    ∀ c < 128, normalize_title (to_lowercase c) = normalize_title [c] := by
  decide

theorem normalize_title_upper_char :
    ∀ c < 128, normalize_title (to_uppercase c) = normalize_title [c] := by
  decide

theorem normalize_title_idem (s : List Nat) (h : ∀ c ∈ s, c < 128) :
    normalize_title (normalize_title s) = normalize_title s := by
  induction s with
  | nil => rfl
  | cons c tl ih =>
    have hc : c < 128 := h c (List.mem_cons_self c tl)
    have htl : ∀ x ∈ tl, x < 128 := fun x hx => h x (List.mem_cons_of_mem c hx)
    rw [show c :: tl = [c] ++ tl from rfl, normalize_title_append,
      normalize_title_append, normalize_title_idem_char c hc, ih htl]

theorem normalize_title_flatMap_lower (s : List Nat) (h : ∀ c ∈ s, c < 128) :
    normalize_title (s.flatMap to_lowercase) = normalize_title s := by
  induction s with
  | nil => rfl
  | cons c tl ih =>
    have hc : c < 128 := h c (List.mem_cons_self c tl)
    have htl : ∀ x ∈ tl, x < 128 := fun x hx => h x (List.mem_cons_of_mem c hx)
    rw [List.flatMap_cons, normalize_title_append,
      normalize_title_lower_char c hc, ih htl, ← normalize_title_append]
    rfl

theorem normalize_title_flatMap_upper (s : List Nat) (h : ∀ c ∈ s, c < 128) :
    normalize_title (s.flatMap to_uppercase) = normalize_title s := by
  induction s with
  | nil => rfl
  | cons c tl ih =>
    have hc : c < 128 := h c (List.mem_cons_self c tl)
    have htl : ∀ x ∈ tl, x < 128 := fun x hx => h x (List.mem_cons_of_mem c hx)
    rw [List.flatMap_cons, normalize_title_append,
      normalize_title_upper_char c hc, ih htl, ← normalize_title_append]
    rfl

/-- The greedy one-to-one matching count is the size of the multiset
intersection, hence symmetric. -/
theorem greedyMatches_eq_card_inter {α : Type} [DecidableEq α] (a b : List α) :
    greedyMatches a b =
      ((a : Multiset α) ∩ (b : Multiset α)).card := by
  induction a generalizing b with
  | nil => simp [greedyMatches]
  | cons x xs ih =>
    unfold greedyMatches
    by_cases h : x ∈ b
    · rw [if_pos h, ih (b.erase x),
        show ((x :: xs : List α) : Multiset α) =
          x ::ₘ (xs : Multiset α) from rfl,
        Multiset.cons_inter_of_pos _ (Multiset.mem_coe.mpr h),
        Multiset.card_cons, ← Multiset.coe_erase]
      omega
    · rw [if_neg h, ih b,
        show ((x :: xs : List α) : Multiset α) =
          x ::ₘ (xs : Multiset α) from rfl,
        Multiset.cons_inter_of_neg _ (fun hc => h (Multiset.mem_coe.mp hc))]

theorem similarity_comm (a b : List Nat) : similarity a b = similarity b a := by
  unfold similarity
  split_ifs <;>
    first
      | rfl
      | tauto
      | rw [greedyMatches_eq_card_inter, greedyMatches_eq_card_inter,
          Multiset.inter_comm,
          add_comm (((bigrams a).length : ℚ)) (((bigrams b).length : ℚ))]

theorem similarity_self (a : List Nat) (h : a ≠ []) : similarity a a = 1 := by
  unfold similarity
  rw [if_neg (by simp [h]), if_pos rfl]

/-- Claim C7 counterexample: on the real Unicode mappings the claim
fails as stated.  `normalize` is not idempotent — U+0130 (İ) is
alphanumeric and lowercases to `i` plus the combining dot U+0307,
which is not alphanumeric, so a second pass drops it; and `normalize`
is not case-invariant — U+00DF (ß) uppercases to `SS`, which
normalizes to `ss ≠ ß`. -/
theorem normalize_unicode_cex :
    normalize_title (normalize_title [0x130]) ≠ normalize_title [0x130] ∧
    normalize_title (List.flatMap [0xDF] to_uppercase) ≠
      normalize_title [0xDF] := by
  decide

/-- Claim C7 (amended): restricted to ASCII input (every code point
below 128, where the Unicode mappings are single-code-point and
class-preserving), `normalize` is idempotent and invariant under case;
for all strings, `sim` is symmetric and `sim(a,a) = 1` for every
non-empty `a`. -/
theorem normalize_similarity_props (s a b : List Nat)
    (hascii : ∀ c ∈ s, c < 128) :
    normalize_title (normalize_title s) = normalize_title s ∧
    normalize_title (s.flatMap to_lowercase) = normalize_title s ∧
    normalize_title (s.flatMap to_uppercase) = normalize_title s ∧
    similarity a b = similarity b a ∧
    (a ≠ [] → similarity a a = 1) :=
  ⟨normalize_title_idem s hascii, normalize_title_flatMap_lower s hascii,
   normalize_title_flatMap_upper s hascii, similarity_comm a b,
   fun h => similarity_self a h⟩

/-- Witness for C7 at the code points of `Spy`: idempotence at an
ASCII string and self-similarity 1. -/
theorem normalize_similarity_props_witness :
    normalize_title (normalize_title [83, 112, 121]) =
      normalize_title [83, 112, 121] ∧
    similarity [83, 112] [83, 112] = 1 :=
  ⟨(normalize_similarity_props [83, 112, 121] [83, 112] [80] (by decide)).1,
   (normalize_similarity_props [83, 112, 121] [83, 112] [80]
      (by decide)).2.2.2.2 (by decide)⟩

/-! ## Claim C6 -/

/-- When some episode is within 0.01 of the target, the scanning loop
returns the first such episode, whatever best it carries. -/
theorem matchEpisodeLoop_exact (target : ℚ) (eps : List Episode) (e : Episode)
    (h : eps.find? (fun x => decide (|episodeValue x - target| ≤ 1 / 100)) = some e) :
    ∀ best, matchEpisodeLoop target eps best = some e.id := by
  induction eps with
  | nil => exact absurd h (by simp)
  | cons a tl ih =>
    intro best
    by_cases ha : |episodeValue a - target| ≤ 1 / 100
    · rw [List.find?_cons_of_pos tl (decide_eq_true ha)] at h
      injection h with h
      simp only [matchEpisodeLoop]
      rw [if_pos ha, h]
    · rw [List.find?_cons_of_neg tl (by simpa using ha)] at h
      simp only [matchEpisodeLoop]
      rw [if_neg ha]
      exact ih h _

/-- When no episode is within 0.01 of the target, the scanning loop
computes the first argmin of the distance, seeded by the carried best,
and applies the 1.0 cut-off. -/
theorem matchEpisodeLoop_no_exact (target : ℚ) (eps : List Episode)
    (hno : ∀ x ∈ eps, ¬ (|episodeValue x - target| ≤ 1 / 100)) (bestE : Option Episode) :
    matchEpisodeLoop target eps
        (bestE.map fun x => (x.id, |episodeValue x - target|)) =
      (match eps.foldl
          (fun acc x =>
            match acc with
            | none => some x
            | some b =>
              if |episodeValue x - target| < |episodeValue b - target| then some x
              else some b)
          bestE with
       | none => none
       | some x => if |episodeValue x - target| ≤ 1 then some x.id else none) := by
  induction eps generalizing bestE with
  | nil =>
    cases bestE with
    | none => rfl
    | some x => rfl
  | cons a tl ih =>
    have ha : ¬ (|episodeValue a - target| ≤ 1 / 100) :=
      hno a (List.mem_cons_self a tl)
    have htl : ∀ x ∈ tl, ¬ (|episodeValue x - target| ≤ 1 / 100) :=
      fun x hx => hno x (List.mem_cons_of_mem a hx)
    simp only [matchEpisodeLoop]
    rw [if_neg ha]
    have hbest :
        (match bestE.map fun x : Episode => (x.id, |episodeValue x - target|) with
          | none => some (a.id, |episodeValue a - target|)
          | some (bid, bdiff) =>
            if |episodeValue a - target| < bdiff then
              some (a.id, |episodeValue a - target|)
            else some (bid, bdiff)) =
          ((match bestE with
            | none => some a
            | some b =>
              if |episodeValue a - target| < |episodeValue b - target| then some a
              else some b).map fun x : Episode => (x.id, |episodeValue x - target|)) := by
      cases bestE with
      | none => rfl
      | some b =>
        show (if |episodeValue a - target| < |episodeValue b - target| then
            some (a.id, |episodeValue a - target|)
          else some (b.id, |episodeValue b - target|)) =
          Option.map (fun x : Episode => (x.id, |episodeValue x - target|))
            (if |episodeValue a - target| < |episodeValue b - target| then some a
             else some b)
        split_ifs <;> rfl
    rw [hbest, ih htl]
    rfl

/-- Claim C6: episode resolution picks per the claimed rule — the
first episode whose `ep ?? sort` is within 0.01 of the parsed value
wins immediately; otherwise the closest episode is chosen when within
1.0; otherwise, and for a non-numeric episode string, no episode. -/
theorem match_episode_id_spec (epStr : List Nat) (eps : List Episode) :
    match_episode_id epStr eps = specEpisodePick epStr eps ∧
    (parse_episode_number epStr = none → match_episode_id epStr eps = none) := by
  constructor
  · cases hp : parse_episode_number epStr with
    | none => simp only [match_episode_id, specEpisodePick, hp]
    | some target =>
      simp only [match_episode_id, specEpisodePick, hp]
      cases hf : eps.find? (fun x => decide (|episodeValue x - target| ≤ 1 / 100)) with
      | some e =>
        simp only [hf]
        exact matchEpisodeLoop_exact target eps e hf none
      | none =>
        simp only [hf]
        have hno : ∀ x ∈ eps, ¬ (|episodeValue x - target| ≤ 1 / 100) := by
          intro x hx
          have hx2 := List.find?_eq_none.mp hf x hx
          simpa using hx2
        exact matchEpisodeLoop_no_exact target eps hno none
  · intro hp
    simp only [match_episode_id, hp]

/-- Witness for C6 at the S4 scenario: cached episodes
`(id 100, sort 11, ep 11)` and `(id 101, sort 12, ep 12)`; the
non-numeric string `SP` resolves to no episode, the string `12` to
episode 101. -/
theorem match_episode_id_spec_witness :
    parse_episode_number [83, 80] = none ∧
    match_episode_id [83, 80]
      [⟨100, 7, 0, [], [], 11, some 11, none⟩,
       ⟨101, 7, 0, [], [], 12, some 12, none⟩] = none ∧
    match_episode_id [49, 50]
      [⟨100, 7, 0, [], [], 11, some 11, none⟩,
       ⟨101, 7, 0, [], [], 12, some 12, none⟩] = some 101 := by
  refine ⟨by decide, (match_episode_id_spec [83, 80]
      [⟨100, 7, 0, [], [], 11, some 11, none⟩,
       ⟨101, 7, 0, [], [], 12, some 12, none⟩]).2 (by decide), ?_⟩
  have hb : collectEpisodeChars [49, 50] [] = [49, 50] := by decide
  have hn : natOfDigits [49, 50] = 12 := by decide
  have hc : ([49, 50] : List Nat).count 46 = 0 := by decide
  have hd : parseDecimal [49, 50] = some 12 := by
    simp only [parseDecimal, hc, hn]
    norm_num
    intro h
    exact absurd h (by decide)
  have hp : parse_episode_number [49, 50] = some 12 := by
    simp only [parse_episode_number, hb, hd]
    norm_num
    intro h
    exact absurd h (by decide)
  simp only [match_episode_id, hp]
  norm_num [matchEpisodeLoop, episodeValue]

/-! ## Claim C2 -/

theorem map_id_of_id_preserve {f : JobRow → JobRow}
    (hf : ∀ r, (f r).id = r.id) (rows : List JobRow) :
    (rows.map f).map JobRow.id = rows.map JobRow.id := by
  rw [List.map_map]
  exact List.map_congr_left fun a _ => hf a

theorem mem_eq_of_nodup_ids {rows : List JobRow}
    (hnd : (rows.map JobRow.id).Nodup) {r r2 : JobRow}
    (hr : r ∈ rows) (hr2 : r2 ∈ rows) (hid : r.id = r2.id) : r = r2 := by
  induction rows with
  | nil => exact absurd hr (List.not_mem_nil r)
  | cons a tl ih =>
    rw [List.map_cons, List.nodup_cons] at hnd
    rcases List.mem_cons.mp hr with h1 | h1 <;>
      rcases List.mem_cons.mp hr2 with h2 | h2
    · exact h1.trans h2.symm
    · exfalso
      apply hnd.1
      have hx : a.id = r2.id := by rw [← h1]; exact hid
      rw [hx]
      exact List.mem_map_of_mem JobRow.id h2
    · exfalso
      apply hnd.1
      have hx : a.id = r.id := by rw [← h2]; exact hid.symm
      rw [hx]
      exact List.mem_map_of_mem JobRow.id h1
    · exact ih hnd.2 h1 h2

theorem mem_map_eq_of_nodup_ids {f : JobRow → JobRow}
    (hf : ∀ r, (f r).id = r.id) {rows : List JobRow}
    (hnd : (rows.map JobRow.id).Nodup) {r r2 : JobRow}
    (hr : r ∈ rows) (hr2 : r2 ∈ rows.map f) (hid : r.id = r2.id) :
    r2 = f r := by
  obtain ⟨r3, hr3, hfr3⟩ := List.mem_map.mp hr2
  have hid3 : r3.id = r.id := by
    rw [hid, ← hfr3, hf r3]
  rw [mem_eq_of_nodup_ids hnd hr3 hr hid3] at hfr3
  exact hfr3.symm

theorem foldl_minCreatedStep_mem (l : List JobRow) (b : JobRow) :
    ∃ r, l.foldl minCreatedStep (some b) = some r ∧ (r = b ∨ r ∈ l) := by
  induction l generalizing b with
  | nil => exact ⟨b, rfl, Or.inl rfl⟩
  | cons a tl ih =>
    have hstep : (a :: tl).foldl minCreatedStep (some b) =
        tl.foldl minCreatedStep (minCreatedStep (some b) a) := rfl
    by_cases h : a.created_at < b.created_at
    · obtain ⟨r, hfold, hmem⟩ := ih a
      refine ⟨r, ?_, ?_⟩
      · rw [hstep]; simpa [minCreatedStep, h] using hfold
      · rcases hmem with h1 | h1
        · exact Or.inr (h1 ▸ List.mem_cons_self a tl)
        · exact Or.inr (List.mem_cons_of_mem a h1)
    · obtain ⟨r, hfold, hmem⟩ := ih b
      refine ⟨r, ?_, ?_⟩
      · rw [hstep]; simpa [minCreatedStep, h] using hfold
      · rcases hmem with h1 | h1
        · exact Or.inl h1
        · exact Or.inr (List.mem_cons_of_mem a h1)

theorem pickNextJob_mem {rows : List JobRow} {now : Int} {row : JobRow}
    (h : pickNextJob rows now = some row) :
    row ∈ rows ∧ fetchEligible now row = true := by
  unfold pickNextJob at h
  rcases hfl : rows.filter (fetchEligible now) with _ | ⟨a, tl⟩
  · rw [hfl] at h
    exact absurd h (by simp)
  · rw [hfl] at h
    obtain ⟨r, hfold, hmem⟩ := foldl_minCreatedStep_mem tl a
    rw [show (a :: tl).foldl minCreatedStep none =
        tl.foldl minCreatedStep (some a) from rfl, hfold] at h
    injection h with h
    have hrf : r ∈ rows.filter (fetchEligible now) := by
      rw [hfl]
      rcases hmem with h1 | h1
      · exact h1 ▸ List.mem_cons_self a tl
      · exact List.mem_cons_of_mem a h1
    rw [← h]
    exact ⟨(List.mem_filter.mp hrf).1, (List.mem_filter.mp hrf).2⟩

/-- The invariant is preserved by any row-wise update that keeps ids
and attempt bounds. -/
theorem map_op_inv {s : QueueState} {f : JobRow → JobRow}
    (hinv : QueueInv s)
    (hid : ∀ r, (f r).id = r.id)
    (hbound : ∀ r ∈ s.rows, 0 ≤ r.attempts ∧ r.attempts ≤ r.max_attempts →
      0 ≤ (f r).attempts ∧ (f r).attempts ≤ (f r).max_attempts) :
    QueueInv ⟨s.rows.map f, s.nextId⟩ := by
  constructor
  · intro r2 hr2
    obtain ⟨r, hr, hfr⟩ := List.mem_map.mp hr2
    have h := hinv.1 r hr
    have hb := hbound r hr ⟨h.1, h.2.1⟩
    subst hfr
    exact ⟨hb.1, hb.2, by rw [hid r]; exact h.2.2⟩
  · show ((s.rows.map f).map JobRow.id).Nodup
    rw [map_id_of_id_preserve hid]
    exact hinv.2

theorem enqueue_append_inv (s : QueueState) (t p : String) (ma : Int)
    (dk : Option String) (now : Int) (hinv : QueueInv s) (hma : 0 ≤ ma) :
    QueueInv ⟨s.rows ++ [newJobRow s.nextId t p ma dk now], s.nextId + 1⟩ := by
  constructor
  · intro r hr
    rcases List.mem_append.mp hr with h1 | h1
    · have h := hinv.1 r h1
      refine ⟨h.1, h.2.1, ?_⟩
      show r.id < s.nextId + 1
      have := h.2.2
      omega
    · rw [List.mem_singleton.mp h1]
      refine ⟨le_refl 0, ?_, ?_⟩
      · show (0 : Int) ≤ ma
        exact hma
      · show s.nextId < s.nextId + 1
        omega
  · show (((s.rows ++ [newJobRow s.nextId t p ma dk now]).map JobRow.id)).Nodup
    rw [List.map_append]
    rw [List.nodup_append]
    refine ⟨hinv.2, List.nodup_singleton _, ?_⟩
    intro x hx hx2
    obtain ⟨r, hr, hrx⟩ := List.mem_map.mp hx
    have hlt := (hinv.1 r hr).2.2
    have : x = s.nextId := by
      simpa using hx2
    omega

theorem wrapI32_of_lt {m : Nat} (h : m < 2 ^ 31) : wrapI32 m = (m : Int) := by
  unfold wrapI32
  omega

theorem fetchEligible_parts {now : Int} {r : JobRow}
    (h : fetchEligible now r = true) : r.attempts < r.max_attempts := by
  unfold fetchEligible at h
  simp only [Bool.and_eq_true, decide_eq_true_eq] at h
  exact h.2

/-- Every operation preserves the queue invariant, provided enqueues
pass a `max_attempts` that fits in `i32`. -/
theorem applyOp_inv (s : QueueState) (op : QueueOp) (hinv : QueueInv s)
    (hb : enqueueBounded op = true) : QueueInv (applyOp s op) := by
  cases op with
  | enqueue t p m k now =>
    have hm : m < 2 ^ 31 := by simpa [enqueueBounded] using hb
    have hma : (0 : Int) ≤ wrapI32 m := by rw [wrapI32_of_lt hm]; positivity
    cases k with
    | none => exact enqueue_append_inv s t p (wrapI32 m) none now hinv hma
    | some key =>
      by_cases hany : s.rows.any (activeDup t key) = true
      · obtain ⟨r, hsel, _, _, _⟩ := selectActiveDup_spec s.rows t key hany
        have hres : applyOp s (.enqueue t p m (some key) now) = s := by
          simp [applyOp, enqueue_job, hany, hsel]
        rw [hres]
        exact hinv
      · rw [Bool.not_eq_true] at hany
        have hres : applyOp s (.enqueue t p m (some key) now) =
            ⟨s.rows ++ [newJobRow s.nextId t p (wrapI32 m) (some key) now],
              s.nextId + 1⟩ := by
          simp [applyOp, enqueue_job, hany]
        rw [hres]
        exact enqueue_append_inv s t p (wrapI32 m) (some key) now hinv hma
  | fetch w now =>
    show QueueInv (fetch_next_job s w now).2
    cases hpick : pickNextJob s.rows now with
    | none =>
      have hres : (fetch_next_job s w now).2 = s := by
        simp [fetch_next_job, hpick]
      rw [hres]
      exact hinv
    | some row =>
      obtain ⟨hrowmem, helig⟩ := pickNextJob_mem hpick
      have hres : (fetch_next_job s w now).2 =
          ⟨s.rows.map fun r =>
            if r.id == row.id then
              { r with
                  status := .running
                  locked_at := some now
                  locked_by := some w
                  attempts := row.attempts + 1
                  updated_at := now }
            else r, s.nextId⟩ := by
        simp [fetch_next_job, hpick]
      rw [hres]
      apply map_op_inv hinv
      · intro r
        by_cases h : (r.id == row.id) = true <;> simp [h]
      · intro r hr hb2
        by_cases h : (r.id == row.id) = true
        · have hreq : r = row :=
            mem_eq_of_nodup_ids hinv.2 hr hrowmem (by simpa using h)
          have hlt := fetchEligible_parts helig
          subst hreq
          simp only [h, if_true]
          constructor <;> [omega; exact hlt]
        · simp only [h, if_false]
          exact hb2
  | complete id res now =>
    show QueueInv (complete_job s id res now)
    apply map_op_inv hinv
    · intro r
      by_cases h : (r.id == id) = true <;> simp [h]
    · intro r hr hb2
      by_cases h : (r.id == id) = true <;> simp only [h, if_true, if_false] <;>
        exact hb2
  | fail id e now =>
    cases hfind : s.rows.find? (fun r => r.id == id) with
    | none =>
      have hres : applyOp s (.fail id e now) = s := by
        simp [applyOp, hfind]
      rw [hres]
      exact hinv
    | some r0 =>
      have hres : applyOp s (.fail id e now) =
          fail_job s id r0.attempts r0.max_attempts e now := by
        simp [applyOp, hfind]
      rw [hres]
      unfold fail_job
      split_ifs with hcase <;>
        (apply map_op_inv hinv
         · intro r
           by_cases h : (r.id == id) = true <;> simp [h]
         · intro r hr hb2
           by_cases h : (r.id == id) = true <;>
             simp only [h, if_true, if_false] <;> exact hb2)
  | requeue t now =>
    show QueueInv (requeue_stuck_jobs s t now)
    unfold requeue_stuck_jobs
    split_ifs with ht
    · exact hinv
    · apply map_op_inv hinv
      · intro r
        by_cases h1 : (r.status == JobStatus.running
            && (match r.locked_at with
                | some t2 => decide (t2 < now - (t : Int))
                | none => false)) = true <;>
          by_cases h2 : r.max_attempts ≤ r.attempts <;>
          simp [h1, h2]
      · intro r hr hb2
        by_cases h1 : (r.status == JobStatus.running
            && (match r.locked_at with
                | some t2 => decide (t2 < now - (t : Int))
                | none => false)) = true <;>
          by_cases h2 : r.max_attempts ≤ r.attempts <;>
          simp [h1, h2] <;> omega

theorem runOps_inv (ops : List QueueOp) (s : QueueState) (hinv : QueueInv s)
    (hb : ∀ o ∈ ops, enqueueBounded o = true) : QueueInv (runOps s ops) := by
  induction ops generalizing s with
  | nil => exact hinv
  | cons o tl ih =>
    exact ih (applyOp s o)
      (applyOp_inv s o hinv (hb o (List.mem_cons_self o tl)))
      fun o2 ho2 => hb o2 (List.mem_cons_of_mem o ho2)

theorem initState_inv : QueueInv initState := by
  constructor
  · intro r hr
    exact absurd hr (List.not_mem_nil r)
  · exact List.nodup_nil

/-- The monotonicity / failed-transition part of one step, for row-wise
updates. -/
theorem map_op_step {s : QueueState} {f : JobRow → JobRow}
    (hnd : (s.rows.map JobRow.id).Nodup)
    (hid : ∀ r, (f r).id = r.id)
    (hstep : ∀ r ∈ s.rows, r.attempts ≤ (f r).attempts ∧
      ((f r).status = .failed → r.status ≠ .failed →
        (f r).attempts = (f r).max_attempts)) :
    ∀ r ∈ s.rows, ∀ r2 ∈ s.rows.map f, r.id = r2.id →
      r.attempts ≤ r2.attempts ∧
      (r2.status = .failed → r.status ≠ .failed →
        r2.attempts = r2.max_attempts) := by
  intro r hr r2 hr2 hidq
  rw [mem_map_eq_of_nodup_ids hid hnd hr hr2 hidq]
  exact hstep r hr

/-- Rows of an unchanged state trivially satisfy the step property. -/
theorem unchanged_step {s : QueueState}
    (hnd : (s.rows.map JobRow.id).Nodup) :
    ∀ r ∈ s.rows, ∀ r2 ∈ s.rows, r.id = r2.id →
      r.attempts ≤ r2.attempts ∧
      (r2.status = .failed → r.status ≠ .failed →
        r2.attempts = r2.max_attempts) := by
  intro r hr r2 hr2 hidq
  rw [← mem_eq_of_nodup_ids hnd hr hr2 hidq]
  exact ⟨le_refl _, fun hf hnf => absurd hf hnf⟩

/-- Across any single operation, a surviving row's `attempts` does not
decrease, and a row that turns `failed` does so at `attempts =
max_attempts`. -/
theorem applyOp_step (s : QueueState) (op : QueueOp) (hinv : QueueInv s) :
    ∀ r ∈ s.rows, ∀ r2 ∈ (applyOp s op).rows, r.id = r2.id →
      r.attempts ≤ r2.attempts ∧
      (r2.status = .failed → r.status ≠ .failed →
        r2.attempts = r2.max_attempts) := by
  cases op with
  | enqueue t p m k now =>
    have hgen : ∀ dk : Option String, ∀ r ∈ s.rows,
        ∀ r2 ∈ s.rows ++ [newJobRow s.nextId t p (wrapI32 m) dk now],
          r.id = r2.id →
          r.attempts ≤ r2.attempts ∧
          (r2.status = .failed → r.status ≠ .failed →
            r2.attempts = r2.max_attempts) := by
      intro dk r hr r2 hr2 hidq
      rcases List.mem_append.mp hr2 with h1 | h1
      · rw [← mem_eq_of_nodup_ids hinv.2 hr h1 hidq]
        exact ⟨le_refl _, fun hf hnf => absurd hf hnf⟩
      · exfalso
        have hn : r2.id = s.nextId := by
          rw [List.mem_singleton.mp h1]
          rfl
        have := (hinv.1 r hr).2.2
        omega
    cases k with
    | none => exact hgen none
    | some key =>
      by_cases hany : s.rows.any (activeDup t key) = true
      · obtain ⟨rr, hsel, _, _, _⟩ := selectActiveDup_spec s.rows t key hany
        have hres : applyOp s (.enqueue t p m (some key) now) = s := by
          simp [applyOp, enqueue_job, hany, hsel]
        rw [hres]
        exact unchanged_step hinv.2
      · rw [Bool.not_eq_true] at hany
        have hres : applyOp s (.enqueue t p m (some key) now) =
            ⟨s.rows ++ [newJobRow s.nextId t p (wrapI32 m) (some key) now],
              s.nextId + 1⟩ := by
          simp [applyOp, enqueue_job, hany]
        rw [hres]
        exact hgen (some key)
  | fetch w now =>
    show ∀ r ∈ s.rows, ∀ r2 ∈ (fetch_next_job s w now).2.rows, _
    cases hpick : pickNextJob s.rows now with
    | none =>
      have hres : (fetch_next_job s w now).2 = s := by
        simp [fetch_next_job, hpick]
      rw [hres]
      exact unchanged_step hinv.2
    | some row =>
      obtain ⟨hrowmem, helig⟩ := pickNextJob_mem hpick
      have hres : (fetch_next_job s w now).2 =
          ⟨s.rows.map fun r =>
            if r.id == row.id then
              { r with
                  status := .running
                  locked_at := some now
                  locked_by := some w
                  attempts := row.attempts + 1
                  updated_at := now }
            else r, s.nextId⟩ := by
        simp [fetch_next_job, hpick]
      rw [hres]
      apply map_op_step hinv.2
        (by intro r; by_cases h : (r.id == row.id) = true <;> simp [h])
      intro r hr
      by_cases h : (r.id == row.id) = true
      · have hreq : r = row :=
          mem_eq_of_nodup_ids hinv.2 hr hrowmem (by simpa using h)
        subst hreq
        simp only [h, if_true]
        refine ⟨by omega, ?_⟩
        intro hf
        exact absurd hf (by simp)
      · simp only [h, if_false]
        exact ⟨le_refl _, fun hf hnf => absurd hf hnf⟩
  | complete id res now =>
    show ∀ r ∈ s.rows, ∀ r2 ∈ (complete_job s id res now).rows, _
    apply map_op_step hinv.2
      (by intro r; by_cases h : (r.id == id) = true <;> simp [complete_job, h])
    intro r hr
    by_cases h : (r.id == id) = true
    · simp only [complete_job, h, if_true]
      refine ⟨le_refl _, ?_⟩
      intro hf
      exact absurd hf (by simp)
    · simp only [complete_job, h, if_false]
      exact ⟨le_refl _, fun hf hnf => absurd hf hnf⟩
  | fail id e now =>
    cases hfind : s.rows.find? (fun r => r.id == id) with
    | none =>
      have hres : applyOp s (.fail id e now) = s := by
        simp [applyOp, hfind]
      rw [hres]
      exact unchanged_step hinv.2
    | some r0 =>
      have hr0mem : r0 ∈ s.rows := List.mem_of_find?_eq_some hfind
      have hr0id : r0.id = id := by
        have := List.find?_some hfind
        simpa using this
      have hres : applyOp s (.fail id e now) =
          fail_job s id r0.attempts r0.max_attempts e now := by
        simp [applyOp, hfind]
      rw [hres]
      unfold fail_job
      split_ifs with hcase
      · apply map_op_step hinv.2
          (by intro r; by_cases h : (r.id == id) = true <;> simp [h])
        intro r hr
        by_cases h : (r.id == id) = true
        · have hreq : r = r0 := by
            apply mem_eq_of_nodup_ids hinv.2 hr hr0mem
            rw [hr0id]
            simpa using h
          simp only [h, if_true]
          refine ⟨le_refl _, fun _ _ => ?_⟩
          show r.attempts = r.max_attempts
          have hb := (hinv.1 r hr).2.1
          rw [hreq] at hb ⊢
          omega
        · simp only [h, if_false]
          exact ⟨le_refl _, fun hf hnf => absurd hf hnf⟩
      · apply map_op_step hinv.2
          (by intro r; by_cases h : (r.id == id) = true <;> simp [h])
        intro r hr
        by_cases h : (r.id == id) = true
        · simp only [h, if_true]
          refine ⟨le_refl _, ?_⟩
          intro hf
          exact absurd hf (by simp)
        · simp only [h, if_false]
          exact ⟨le_refl _, fun hf hnf => absurd hf hnf⟩
  | requeue t now =>
    show ∀ r ∈ s.rows, ∀ r2 ∈ (requeue_stuck_jobs s t now).rows, _
    unfold requeue_stuck_jobs
    split_ifs with ht
    · exact unchanged_step hinv.2
    · apply map_op_step hinv.2
        (by
          intro r
          by_cases h1 : (r.status == JobStatus.running
              && (match r.locked_at with
                  | some t2 => decide (t2 < now - (t : Int))
                  | none => false)) = true <;>
            by_cases h2 : r.max_attempts ≤ r.attempts <;>
            simp [h1, h2])
      intro r hr
      by_cases h1 : (r.status == JobStatus.running
          && (match r.locked_at with
              | some t2 => decide (t2 < now - (t : Int))
              | none => false)) = true
      · by_cases h2 : r.max_attempts ≤ r.attempts
        · simp only [h1, h2, if_true]
          refine ⟨le_refl _, fun _ _ => ?_⟩
          show r.attempts = r.max_attempts
          have hb := (hinv.1 r hr).2.1
          omega
        · simp only [h1, h2, if_true, if_false]
          refine ⟨le_refl _, ?_⟩
          intro hf
          exact absurd hf (by simp)
      · simp only [h1, if_false]
        exact ⟨le_refl _, fun hf hnf => absurd hf hnf⟩

/-- Claim C2 (amended): over every sequence of queue operations from
the empty queue in which each `enqueue_job` passes a `max_attempts`
below `2^31` (so the `u32 as i32` cast preserves it), every row keeps
`0 ≤ attempts ≤ max_attempts`, a surviving row's `attempts` never
decreases across an operation, and a row that transitions to `failed`
does so exactly at `attempts = max_attempts`. -/
theorem job_attempts_invariant (ops : List QueueOp) (op : QueueOp)
    (hops : ∀ o ∈ ops, enqueueBounded o = true)
    (hop : enqueueBounded op = true) :
    (∀ r2 ∈ (applyOp (runOps initState ops) op).rows,
        0 ≤ r2.attempts ∧ r2.attempts ≤ r2.max_attempts) ∧
    (∀ r ∈ (runOps initState ops).rows,
      ∀ r2 ∈ (applyOp (runOps initState ops) op).rows, r.id = r2.id →
        r.attempts ≤ r2.attempts ∧
        (r2.status = .failed → r.status ≠ .failed →
          r2.attempts = r2.max_attempts)) := by
  have hinv := runOps_inv ops initState initState_inv hops
  have hinv2 := applyOp_inv _ op hinv hop
  exact ⟨fun r2 hr2 => ⟨(hinv2.1 r2 hr2).1, (hinv2.1 r2 hr2).2.1⟩,
    applyOp_step _ op hinv⟩

/-- Witness for C2 at the one-operation trace enqueueing an `"index"`
job with `max_attempts = 3`. -/
theorem job_attempts_invariant_witness :
    (∀ r2 ∈ (applyOp (runOps initState [])
        (.enqueue "index" "p" 3 none 0)).rows,
        0 ≤ r2.attempts ∧ r2.attempts ≤ r2.max_attempts) ∧
    (∀ r ∈ (runOps initState []).rows,
      ∀ r2 ∈ (applyOp (runOps initState [])
          (.enqueue "index" "p" 3 none 0)).rows, r.id = r2.id →
        r.attempts ≤ r2.attempts ∧
        (r2.status = .failed → r.status ≠ .failed →
          r2.attempts = r2.max_attempts)) :=
  job_attempts_invariant [] (.enqueue "index" "p" 3 none 0)
    (by simp) (by decide)

/-- Claim C2 counterexample: as literally stated the bound fails — an
`enqueue_job` call with `max_attempts = 2^31` stores, after the
`u32 as i32` cast, a negative `max_attempts`, and the freshly created
row (a reachable state) has `attempts = 0 > max_attempts`. -/
theorem job_attempts_overflow_cex :
    ∃ r ∈ (runOps initState
        [.enqueue "index" "p" (2 ^ 31) none 0]).rows,
      ¬ (r.attempts ≤ r.max_attempts) := by
  refine ⟨newJobRow 1 "index" "p" (wrapI32 (2 ^ 31)) none 0, ?_, ?_⟩
  · show _ ∈ initState.rows ++ [newJobRow initState.nextId "index" "p"
      (wrapI32 (2 ^ 31)) none 0]
    simp [initState]
  · show ¬ ((0 : Int) ≤ wrapI32 (2 ^ 31))
    unfold wrapI32
    omega

/-! ## Claim C5 -/

theorem find?_filter_superset {α : Type} (p q : α → Bool) (l : List α)
    (h : ∀ x, p x = true → q x = true) :
    (l.filter q).find? p = l.find? p := by
  induction l with
  | nil => rfl
  | cons a tl ih =>
    by_cases hp : p a = true
    · rw [List.filter_cons, if_pos (h a hp), List.find?_cons_of_pos _ hp,
        List.find?_cons_of_pos _ hp]
    · cases hq : q a with
      | false =>
        have hL : (List.filter q (a :: tl)).find? p =
            (List.filter q tl).find? p := by
          rw [List.filter_cons, hq]
          simp
        rw [hL, ih, List.find?_cons_of_neg _ (by simpa using hp)]
      | true =>
        have hL : List.filter q (a :: tl) = a :: List.filter q tl := by
          rw [List.filter_cons, hq]
          simp
        rw [hL, List.find?_cons_of_neg _ (by simpa using hp),
          List.find?_cons_of_neg _ (by simpa using hp), ih]

theorem find?_map_invariant {α : Type} (f : α → α) (p : α → Bool) (l : List α)
    (hfix : ∀ x, p x = true → f x = x) (hp : ∀ x, p (f x) = p x) :
    (l.map f).find? p = l.find? p := by
  induction l with
  | nil => rfl
  | cons a tl ih =>
    rw [List.map_cons]
    by_cases hpa : p a = true
    · rw [List.find?_cons_of_pos _ (by rw [hp a]; exact hpa),
        List.find?_cons_of_pos _ hpa, hfix a hpa]
    · rw [List.find?_cons_of_neg _ (by rw [hp a]; simpa using hpa),
        List.find?_cons_of_neg _ (by simpa using hpa), ih]

theorem find?_append_some {α : Type} {p : α → Bool} {l : List α} (l2 : List α)
    {x : α} (h : l.find? p = some x) : (l ++ l2).find? p = some x := by
  induction l with
  | nil => exact absurd h (by simp)
  | cons a tl ih =>
    by_cases hpa : p a = true
    · rw [List.find?_cons_of_pos _ hpa] at h
      rw [List.cons_append, List.find?_cons_of_pos _ hpa]
      exact h
    · rw [List.find?_cons_of_neg _ (by simpa using hpa)] at h
      rw [List.cons_append, List.find?_cons_of_neg _ (by simpa using hpa)]
      exact ih h

theorem upsert_subject_media_matches (db : MatchDb) (s : Subject) :
    (upsert_subject_cached db s).media_matches = db.media_matches := by
  unfold upsert_subject_cached
  split_ifs <;> rfl

theorem upsert_candidate_media_matches (db : MatchDb) (m : String) (sid : Int)
    (conf : ℚ) (rsn : MatchReason) :
    (upsert_candidate db m sid conf rsn).media_matches = db.media_matches := by
  unfold upsert_candidate
  split_ifs <;> rfl

theorem upsert_episode_media_matches (db : MatchDb) (s : Subject) (e : Episode) :
    (upsert_episode db s e).media_matches = db.media_matches := by
  unfold upsert_episode
  split_ifs <;> rfl

theorem foldl_upsert_episode_media_matches (l : List Episode) (s : Subject) :
    ∀ db : MatchDb,
      (l.foldl (fun db e => upsert_episode db s e) db).media_matches =
        db.media_matches := by
  induction l with
  | nil => intro db; rfl
  | cons e tl ih =>
    intro db
    rw [List.foldl_cons, ih, upsert_episode_media_matches]

theorem sync_media_matches (db : MatchDb) (client : CatalogClient) (sid : Int) :
    (sync_bangumi_subject db client sid).media_matches = db.media_matches := by
  unfold sync_bangumi_subject
  rw [foldl_upsert_episode_media_matches, upsert_subject_media_matches]

theorem ensure_episode_cache_media_matches (db : MatchDb)
    (client : CatalogClient) (sid : Int) :
    (ensure_episode_cache db client sid).media_matches = db.media_matches := by
  unfold ensure_episode_cache
  split_ifs with h
  · exact sync_media_matches db client sid
  · rfl

theorem candidateLoop_media_matches (media_id : String) (title : List Nat)
    (year : Option (List Nat)) (opts : AutoMatchOptions) (subs : List Subject) :
    ∀ (db : MatchDb) (cand : Nat) (best : Option (Subject × ℚ × MatchReason)),
      (candidateLoop db media_id title year opts subs cand best).1.media_matches =
        db.media_matches := by
  induction subs with
  | nil => intro db cand best; rfl
  | cons subject rest ih =>
    intro db cand best
    simp only [candidateLoop]
    split_ifs <;>
      simp only [ih, upsert_candidate_media_matches,
        upsert_subject_media_matches]

theorem upsert_media_match_matches (db : MatchDb) (m : String) (sid : Int)
    (eid : Option Int) (mth : MatchMethod) (conf : Option ℚ)
    (rsn : Option MatchReason) :
    (upsert_media_match db m sid eid mth conf rsn).media_matches =
      if db.media_matches.any fun r => r.media_id == m then
        db.media_matches.map fun r =>
          if r.media_id == m then
            { r with
                subject_id := sid
                episode_id := eid
                method := mth
                confidence := conf
                reason := rsn }
          else r
      else db.media_matches ++ [⟨m, sid, eid, mth, conf, rsn⟩] := by
  unfold upsert_media_match
  split_ifs <;> rfl

theorem has_manual_match_false {db : MatchDb} {m : String}
    (h : has_manual_match db m = false) :
    ∀ r ∈ db.media_matches, r.media_id = m → r.method ≠ MatchMethod.manual := by
  intro r hr hid hmth
  have hw : has_manual_match db m = true :=
    List.any_eq_true.mpr ⟨r, hr, by simp [hid, hmth]⟩
  rw [h] at hw
  exact absurd hw (by simp)

/-- The effect of one `auto_match_all` row on `media_matches`: either
nothing, or — only when no manual match exists for that media — the
auto rows of that media are cleared and possibly one auto row is
upserted. -/
theorem autoMatchRow_matches_shape (client : CatalogClient)
    (opts : AutoMatchOptions) (db : MatchDb) (summary : AutoMatchSummary)
    (row : MediaParseRow) :
    (autoMatchRow client opts db summary row).1.media_matches =
        db.media_matches ∨
    ((∀ r ∈ db.media_matches, r.media_id = row.media_id →
        r.method ≠ MatchMethod.manual) ∧
      ((autoMatchRow client opts db summary row).1.media_matches =
          (db.media_matches.filter fun r =>
            !(r.media_id == row.media_id && r.method == MatchMethod.auto)) ∨
        ∃ sid eid conf rsn,
          (autoMatchRow client opts db summary row).1.media_matches =
            (if (db.media_matches.filter fun r =>
                !(r.media_id == row.media_id && r.method == MatchMethod.auto)).any
                  (fun r => r.media_id == row.media_id) then
              (db.media_matches.filter fun r =>
                !(r.media_id == row.media_id && r.method == MatchMethod.auto)).map
                fun r =>
                  if r.media_id == row.media_id then
                    { r with
                        subject_id := sid
                        episode_id := eid
                        method := MatchMethod.auto
                        confidence := conf
                        reason := rsn }
                  else r
            else (db.media_matches.filter fun r =>
                !(r.media_id == row.media_id && r.method == MatchMethod.auto)) ++
              [⟨row.media_id, sid, eid, MatchMethod.auto, conf, rsn⟩]))) := by
  unfold autoMatchRow
  cases hpo : row.parse_ok with
  | false => exact Or.inl rfl
  | true =>
    simp only [Bool.not_true, Bool.false_eq_true, if_false]
    by_cases hman : has_manual_match db row.media_id = true
    · simp only [hman, if_true]
      exact Or.inl trivial
    · rw [Bool.not_eq_true] at hman
      simp only [hman, Bool.false_eq_true, if_false]
      cases row.title with
      | none => exact Or.inl rfl
      | some title =>
        by_cases hblank : isBlank title = true
        · simp only [hblank, if_true]
          exact Or.inl trivial
        · simp only [hblank, Bool.false_eq_true, if_false]
          refine Or.inr ⟨has_manual_match_false hman, ?_⟩
          by_cases hempty : (client.search title opts.limit).isEmpty = true
          · simp only [hempty, if_true]
            exact Or.inl rfl
          · simp only [hempty, Bool.false_eq_true, if_false]
            rcases hloop : (candidateLoop (clear_auto_match
                (clear_candidates db row.media_id) row.media_id) row.media_id
                title row.year opts (client.search title opts.limit) 0
                none).2.2 with _ | best
            · simp only [hloop]
              left
              rw [candidateLoop_media_matches]
              rfl
            · simp only [hloop]
              by_cases hconf : best.2.1 < opts.min_confidence
              · simp only [hconf, if_true]
                left
                rw [candidateLoop_media_matches]
                rfl
              · simp only [hconf, if_false]
                right
                cases hep : row.episode with
                | none =>
                  refine ⟨best.1.id, none, some best.2.1, some best.2.2, ?_⟩
                  simp only [hep]
                  rw [upsert_media_match_matches, candidateLoop_media_matches]
                  rfl
                | some epStr =>
                  refine ⟨best.1.id,
                    match_episode_id epStr (load_cached_episodes
                      (ensure_episode_cache (candidateLoop (clear_auto_match
                        (clear_candidates db row.media_id) row.media_id)
                        row.media_id title row.year opts
                        (client.search title opts.limit) 0 none).1 client
                        best.1.id) best.1.id),
                    some best.2.1, some best.2.2, ?_⟩
                  simp only [hep]
                  rw [upsert_media_match_matches,
                    ensure_episode_cache_media_matches,
                    candidateLoop_media_matches]
                  rfl

theorem autoMatchRow_manual_mem (client : CatalogClient)
    (opts : AutoMatchOptions) (db : MatchDb) (summary : AutoMatchSummary)
    (row : MediaParseRow) :
    ∀ r ∈ db.media_matches, r.method = .manual →
      r ∈ (autoMatchRow client opts db summary row).1.media_matches := by
  intro r hr hm
  rcases autoMatchRow_matches_shape client opts db summary row with h | ⟨hnoman, h⟩
  · rw [h]
    exact hr
  · have hkeep : (!(r.media_id == row.media_id && r.method == MatchMethod.auto))
        = true := by
      simp [hm]
    have hrid : (r.media_id == row.media_id) = false := by
      have : ¬ (r.media_id = row.media_id) := fun he => hnoman r hr he hm
      simpa using this
    rcases h with h | ⟨sid, eid, conf, rsn, h⟩
    · rw [h]
      exact List.mem_filter.mpr ⟨hr, hkeep⟩
    · rw [h]
      split_ifs with hany
      · exact List.mem_map.mpr
          ⟨r, List.mem_filter.mpr ⟨hr, hkeep⟩, by simp [hrid]⟩
      · exact List.mem_append_left _ (List.mem_filter.mpr ⟨hr, hkeep⟩)

theorem find?_upsert_map (cleared : List MediaMatchRow) (m m2 : String)
    (hne : m ≠ m2) (sid : Int) (eid : Option Int) (conf : Option ℚ)
    (rsn : Option MatchReason) :
    (cleared.map fun r =>
        if r.media_id == m2 then
          { r with
              subject_id := sid
              episode_id := eid
              method := MatchMethod.auto
              confidence := conf
              reason := rsn }
        else r).find? (fun r => r.media_id == m) =
      cleared.find? (fun r => r.media_id == m) := by
  apply find?_map_invariant
  · intro x hx
    have hxm : x.media_id = m := by simpa using hx
    have hc : (x.media_id == m2) = false := by
      rw [hxm]
      simpa using hne
    simp [hc]
  · intro x
    by_cases hc : (x.media_id == m2) = true <;> simp [hc]

theorem autoMatchRow_manual_find (client : CatalogClient)
    (opts : AutoMatchOptions) (db : MatchDb) (summary : AutoMatchSummary)
    (row : MediaParseRow) (m : String) (rec : MediaMatchRow)
    (hfind : db.media_matches.find? (fun r => r.media_id == m) = some rec)
    (hm : rec.method = .manual) :
    (autoMatchRow client opts db summary row).1.media_matches.find?
      (fun r => r.media_id == m) = some rec := by
  rcases autoMatchRow_matches_shape client opts db summary row with h | ⟨hnoman, h⟩
  · rw [h]
    exact hfind
  · have hrecmem : rec ∈ db.media_matches := List.mem_of_find?_eq_some hfind
    have hrecid : rec.media_id = m := by simpa using List.find?_some hfind
    have hne : m ≠ row.media_id := by
      intro he
      exact hnoman rec hrecmem (hrecid.trans he) hm
    have himp : ∀ x : MediaMatchRow, (x.media_id == m) = true →
        (!(x.media_id == row.media_id && x.method == MatchMethod.auto)) = true := by
      intro x hx
      have hxm : x.media_id = m := by simpa using hx
      have hc : (x.media_id == row.media_id) = false := by
        rw [hxm]
        simpa using hne
      simp [hc]
    rcases h with h | ⟨sid, eid, conf, rsn, h⟩
    · rw [h, find?_filter_superset _ _ _ himp]
      exact hfind
    · rw [h]
      split_ifs with hany
      · rw [find?_upsert_map _ m row.media_id hne sid eid conf rsn,
          find?_filter_superset _ _ _ himp]
        exact hfind
      · apply find?_append_some
        rw [find?_filter_superset _ _ _ himp]
        exact hfind

theorem auto_match_fold_manual (client : CatalogClient)
    (opts : AutoMatchOptions) (rows : List MediaParseRow) :
    ∀ (db : MatchDb) (summary : AutoMatchSummary),
      (∀ r ∈ db.media_matches, r.method = .manual →
        r ∈ (rows.foldl (fun acc row => autoMatchRow client opts acc.1 acc.2 row)
          (db, summary)).1.media_matches) ∧
      (∀ (m : String) (rec : MediaMatchRow),
        db.media_matches.find? (fun r => r.media_id == m) = some rec →
        rec.method = .manual →
        (rows.foldl (fun acc row => autoMatchRow client opts acc.1 acc.2 row)
          (db, summary)).1.media_matches.find?
            (fun r => r.media_id == m) = some rec) := by
  induction rows with
  | nil => exact fun db summary => ⟨fun r hr _ => hr, fun m rec hf _ => hf⟩
  | cons row tl ih =>
    intro db summary
    rw [List.foldl_cons]
    constructor
    · intro r hr hm
      exact (ih _ _).1 r
        (autoMatchRow_manual_mem client opts db summary row r hr hm) hm
    · intro m rec hf hm
      exact (ih _ _).2 m rec
        (autoMatchRow_manual_find client opts db summary row m rec hf hm) hm

/-- Claim C5: `auto_match_all`, under any options and any catalog
responses, never overwrites or deletes a manual match — every manual
row survives unchanged, the row found for its media id is still that
manual row afterwards, and any row the run removed or replaced had
method `auto`. -/
theorem auto_match_preserves_manual (db : MatchDb) (client : CatalogClient)
    (opts : AutoMatchOptions) :
    (∀ r ∈ db.media_matches, r.method = .manual →
       r ∈ (auto_match_all db client opts).1.media_matches) ∧
    (∀ (m : String) (rec : MediaMatchRow),
       db.media_matches.find? (fun r => r.media_id == m) = some rec →
       rec.method = .manual →
       (auto_match_all db client opts).1.media_matches.find?
         (fun r => r.media_id == m) = some rec) ∧
    (∀ r ∈ db.media_matches,
       r ∉ (auto_match_all db client opts).1.media_matches →
       r.method = .auto) := by
  have h := auto_match_fold_manual client opts db.media_parses db ⟨0, 0, 0, 0⟩
  refine ⟨h.1, h.2, ?_⟩
  intro r hr hnot
  cases hmth : r.method with
  | auto => rfl
  | manual => exact absurd (h.1 r hr hmth) hnot

/-- Witness for C5: a database holding one parsed media and a manual
match for it; after a run against an empty catalog the manual row is
still the row found for that media. -/
theorem auto_match_preserves_manual_witness :
    (auto_match_all
        ⟨[⟨"m1", some [83], none, none, true⟩],
         [⟨"m1", 42, none, .manual, none, some .manualOverride⟩],
         [], [], []⟩
        ⟨fun _ _ => [], fun i => ⟨i, 2, [], [], [], none, none, none⟩,
          fun _ => []⟩
        AutoMatchOptions.default).1.media_matches.find?
      (fun r => r.media_id == "m1") =
      some ⟨"m1", 42, none, .manual, none, some .manualOverride⟩ :=
  (auto_match_preserves_manual
      ⟨[⟨"m1", some [83], none, none, true⟩],
       [⟨"m1", 42, none, .manual, none, some .manualOverride⟩],
       [], [], []⟩
      ⟨fun _ _ => [], fun i => ⟨i, 2, [], [], [], none, none, none⟩,
        fun _ => []⟩
      AutoMatchOptions.default).2.1 "m1"
    ⟨"m1", 42, none, .manual, none, some .manualOverride⟩ (by decide) rfl

/-- Witness for C10 at the empty queue: the dedup-keyed enqueue appends
exactly one row, and that row carries the dedup key (not NULL). -/
theorem enqueue_dedup_no_null_fallback_witness :
    ((enqueue_job initState "index" "p" 3 (some "k") 0).2.rows =
        initState.rows ∨
      (enqueue_job initState "index" "p" 3 (some "k") 0).2.rows =
        initState.rows ++
          [newJobRow initState.nextId "index" "p" (wrapI32 3) (some "k") 0]) ∧
    (newJobRow initState.nextId "index" "p" (wrapI32 3) (some "k") 0).dedup_key
      = some "k" :=
  ⟨(enqueue_dedup_no_null_fallback initState "index" "p" 3 "k" 0).1,
   (enqueue_dedup_no_null_fallback initState "index" "p" 3 "k" 0).2
     (newJobRow initState.nextId "index" "p" (wrapI32 3) (some "k") 0)
     (by decide) (by decide)⟩

/-- Witness for C8 at the empty byte string: the id has exactly sixteen
characters and its first character is a hex digit. -/
theorem media_id_hex16_witness :
    (media_id_from_path []).length = 16 ∧
    (∀ c ∈ media_id_from_path [], isHexChar c = true) :=
  ⟨(media_id_hex16 []).1, (media_id_hex16 []).2.1⟩

end Anicargo
